import Mathlib

/-!
Verification of the partition-mapping and run-storage subsystem.

Part 1 embeds `TimeWindowPartitionMapping` from
`dagster/_core/definitions/time_window_partition_mapping.py`.  Timestamps are
modelled as integers (abstract time units; the concrete theorems use hours).
The collaborating `TimeWindowPartitionsDefinition` operations are not part of
the sources, so they are modelled from the spec: a definition generates the
ordered, gapless sequence of windows `[k*p, (k+1)*p)` of a cron schedule
abstracted by its period `p`, restricted to an optional start boundary and an
optional end boundary, and generatable only up to `current_time`.
-/

/-- Half-open time interval `[start, endt)`; `endt` models the source field
`end`, which is a reserved word in Lean. -/
structure TimeWindow where
  start : Int
  endt : Int
deriving DecidableEq, Repr

/-- Modelled from the spec: a time-window partitions definition generates an
ordered, gapless sequence of `TimeWindow`s according to a cron schedule and
timezone, with an optional start boundary and an optional end boundary
(open-ended = generate up to "now").  The cron schedule is abstracted by the
period of the window grid: two definitions have equal cron schedules exactly
when the `cron_schedule` fields are equal, and the generated windows are the
grid windows `[k*p, (k+1)*p)` that fall inside the boundaries. -/
structure TimeWindowPartitionsDefinition where
  cron_schedule : Int
  timezone : String
  startTs : Int
  endTs : Option Int
deriving DecidableEq, Repr

/-- Largest multiple of `p` that is `≤ t` (for `p > 0`). -/
def floorAlign (p t : Int) : Int := p * (t / p)

/-- Smallest multiple of `p` that is `≥ t` (for `p > 0`). -/
def ceilAlign (p t : Int) : Int := -(p * ((-t) / p))

/-- Modelled from the spec: start of the first window permitted by the
definition's start boundary (the first cron tick at or after `startTs`). -/
def TimeWindowPartitionsDefinition.alignedStart (d : TimeWindowPartitionsDefinition) : Int :=
  ceilAlign d.cron_schedule d.startTs

/-- Modelled from the spec: the instant up to which windows are generatable as
of `current_time` — the earlier of `current_time` and the optional end
boundary. -/
def TimeWindowPartitionsDefinition.boundEnd (d : TimeWindowPartitionsDefinition)
    (current_time : Int) : Int :=
  match d.endTs with
  | some e => min current_time e
  | none => current_time

/-- Modelled from the spec: the first generatable window of the definition as
of `current_time`, `none` when no complete window exists yet. -/
def get_first_partition_window (d : TimeWindowPartitionsDefinition) (current_time : Int) :
    Option TimeWindow :=
  if d.alignedStart + d.cron_schedule ≤ d.boundEnd current_time then
    some ⟨d.alignedStart, d.alignedStart + d.cron_schedule⟩
  else none

/-- Modelled from the spec: the last generatable window of the definition as
of `current_time`, `none` when no complete window exists yet. -/
def get_last_partition_window (d : TimeWindowPartitionsDefinition) (current_time : Int) :
    Option TimeWindow :=
  if d.alignedStart + d.cron_schedule ≤ floorAlign d.cron_schedule (d.boundEnd current_time) then
    some ⟨floorAlign d.cron_schedule (d.boundEnd current_time) - d.cron_schedule,
      floorAlign d.cron_schedule (d.boundEnd current_time)⟩
  else none

/-- Modelled from the spec: the key of the partition containing the instant,
where a key is the deterministic encoding of the window's start (here the
start itself).  With `end_closed = false` an instant on a window boundary
belongs to the later window; with `end_closed = true` to the earlier one. -/
def get_partition_key_for_timestamp (d : TimeWindowPartitionsDefinition) (ts : Int)
    (end_closed : Bool) : Int :=
  if end_closed then ceilAlign d.cron_schedule ts - d.cron_schedule
  else floorAlign d.cron_schedule ts

/-- Modelled from the spec: keys encode window starts. -/
def start_time_for_partition_key (_d : TimeWindowPartitionsDefinition) (key : Int) : Int := key

/-- Modelled from the spec: the end of a key's window is one period after its
start. -/
def end_time_for_partition_key (d : TimeWindowPartitionsDefinition) (key : Int) : Int :=
  key + d.cron_schedule

/-- Modelled from the spec: the window immediately before `dt` in the
definition's sequence, `none` when that would precede the first permitted
window. -/
def get_prev_partition_window (d : TimeWindowPartitionsDefinition) (dt : Int) :
    Option TimeWindow :=
  if d.alignedStart ≤ ceilAlign d.cron_schedule dt - d.cron_schedule then
    some ⟨ceilAlign d.cron_schedule dt - d.cron_schedule, ceilAlign d.cron_schedule dt⟩
  else none

/-- Modelled from the spec: the window immediately at-or-after `dt` in the
definition's sequence, `none` when walking beyond the last generatable
window as of `current_time`. -/
def get_next_partition_window (d : TimeWindowPartitionsDefinition) (dt current_time : Int) :
    Option TimeWindow :=
  if floorAlign d.cron_schedule dt + d.cron_schedule ≤ d.boundEnd current_time then
    some ⟨floorAlign d.cron_schedule dt, floorAlign d.cron_schedule dt + d.cron_schedule⟩
  else none

/-- Modelled from the spec: the generatable keys whose windows lie inside the
given window. -/
def get_partition_keys_in_time_window (d : TimeWindowPartitionsDefinition) (w : TimeWindow) :
    List Int :=
  let a := ceilAlign d.cron_schedule w.start
  let n := ((w.endt - a) / d.cron_schedule).toNat
  (List.range n).map (fun i => a + d.cron_schedule * i)

/-- Subset of partitions of one `TimeWindowPartitionsDefinition`: the owning
definition, a count of individual partition keys covered, and the included
time windows (source `TimeWindowPartitionsSubset`). -/
structure TimeWindowPartitionsSubset where
  partitions_def : TimeWindowPartitionsDefinition
  num_partitions : Nat
  included_time_windows : List TimeWindow
deriving DecidableEq, Repr

/-- Attribute named by a `DagsterInvalidDefinitionError` raised by
`_map_partitions`. -/
inductive MismatchedAttr
  | cron_schedule
  | timezone
deriving DecidableEq, Repr

/-- Errors of the partition mapper.  `DagsterInvalidDefinitionError` carries
the mismatched attribute its message names; `DagsterInvalidInvocationError` is
the invalid-partition-mapping error of the strict mode; `NoneTypeCrash`
models the Python crash at the unguarded `cast(TimeWindow, ...)` of
`get_first_partition_window`/`get_last_partition_window` results when the
definition has no generatable window. -/
inductive PartitionMappingError
  | DagsterInvalidDefinitionError (attr : MismatchedAttr)
  | DagsterInvalidInvocationError
  | NoneTypeCrash
deriving DecidableEq, Repr

/-- Stateless mapping configuration pairing a `start_offset` and `end_offset`
(source `TimeWindowPartitionMapping`). -/
structure TimeWindowPartitionMapping where
  start_offset : Int
  end_offset : Int
deriving DecidableEq, Repr

/-- Source `_offsetted_datetime` loop body, unrolled on the number of steps:
walk one partition window per step backward (`neg = true`, moving to the
previous window's start) or forward (moving to the next window's end),
returning `none` as soon as a step leaves the generatable sequence. -/
def offsetWalk (d : TimeWindowPartitionsDefinition) (current_time : Int) (neg : Bool) :
    Nat → Int → Option Int
  | 0, dt => some dt
  | n + 1, dt =>
    if neg then
      match get_prev_partition_window d dt with
      | none => none
      | some w => offsetWalk d current_time neg n w.start
    else
      match get_next_partition_window d dt current_time with
      | none => none
      | some w => offsetWalk d current_time neg n w.endt

/-- Source `_offsetted_datetime`: walk `|offset|` steps through the
definition's partition sequence from `dt`, backward for negative offsets and
forward for positive ones; `none` when the walk leaves the sequence.  The
source's next-window lookup bounds the walk by the current time, threaded
here as `current_time`. -/
def _offsetted_datetime (d : TimeWindowPartitionsDefinition) (dt : Int) (offset : Int)
    (current_time : Int) : Option Int :=
  offsetWalk d current_time (offset < 0) offset.natAbs dt

/-- Source lines 211-216: the start of the mapped window — the start time of
the resolved start key when the start boundary resolved, otherwise the start
of the target's first window, crashing when that window is absent. -/
def resolveWindowStart (to_def : TimeWindowPartitionsDefinition) (current_time : Int)
    (key : Option Int) : Except PartitionMappingError Int :=
  match key with
  | some k => Except.ok (start_time_for_partition_key to_def k)
  | none =>
    match get_first_partition_window to_def current_time with
    | some fw => Except.ok fw.start
    | none => Except.error PartitionMappingError.NoneTypeCrash

/-- Source lines 217-221: the end of the mapped window — the end time of the
resolved end key when the end boundary resolved, otherwise the end of the
target's last window, crashing when that window is absent. -/
def resolveWindowEnd (to_def : TimeWindowPartitionsDefinition) (current_time : Int)
    (key : Option Int) : Except PartitionMappingError Int :=
  match key with
  | some k => Except.ok (end_time_for_partition_key to_def k)
  | none =>
    match get_last_partition_window to_def current_time with
    | some lw => Except.ok lw.endt
    | none => Except.error PartitionMappingError.NoneTypeCrash

/-- Source lines 222-224: combine the two resolved boundaries into a window,
keeping it only when it did not invert, and propagating a boundary crash. -/
def combineBoundaries :
    Except PartitionMappingError Int → Except PartitionMappingError Int →
      Except PartitionMappingError (Option TimeWindow)
  | Except.ok window_start, Except.ok window_end =>
    if window_start < window_end then Except.ok (some ⟨window_start, window_end⟩)
    else Except.ok none
  | Except.error e, _ => Except.error e
  | Except.ok _, Except.error e => Except.error e

/-- Source lines 196-202: the target key of the offsetted start boundary,
resolved end-open; `none` when the offset walk left the sequence. -/
def to_start_partition_key (from_def to_def : TimeWindowPartitionsDefinition)
    (start_offset current_time from_start_dt : Int) : Option Int :=
  (_offsetted_datetime from_def from_start_dt start_offset current_time).map
    (fun t => get_partition_key_for_timestamp to_def t false)

/-- Source lines 203-209: the target key of the offsetted end boundary,
resolved end-closed; `none` when the offset walk left the sequence. -/
def to_end_partition_key (from_def to_def : TimeWindowPartitionsDefinition)
    (end_offset current_time from_end_dt : Int) : Option Int :=
  (_offsetted_datetime from_def from_end_dt end_offset current_time).map
    (fun t => get_partition_key_for_timestamp to_def t true)

/-- Loop body of `_map_partitions` for one source window (source lines
189-224): offset both boundaries in the source definition, convert them to
target partition keys (start end-open, end end-closed, an unresolved boundary
falling back to the target's first/last window), and keep the resulting
window unless it inverted.  `.ok none` drops the window; the error case is
the Python `NoneTypeCrash` on a missing first/last window. -/
def mapWindow (from_def to_def : TimeWindowPartitionsDefinition) (start_offset end_offset : Int)
    (current_time : Int) (w : TimeWindow) : Except PartitionMappingError (Option TimeWindow) :=
  if (to_start_partition_key from_def to_def start_offset current_time w.start).isSome ∨
      (to_end_partition_key from_def to_def end_offset current_time w.endt).isSome then
    combineBoundaries
      (resolveWindowStart to_def current_time
        (to_start_partition_key from_def to_def start_offset current_time w.start))
      (resolveWindowEnd to_def current_time
        (to_end_partition_key from_def to_def end_offset current_time w.endt))
  else Except.ok none

/-- One step of the loop of `_map_partitions`: prepend a mapped window (when
it was kept) to the windows of the remaining iterations, propagating the
crash of the earliest iteration in which one occurs. -/
def consWindow :
    Except PartitionMappingError (Option TimeWindow) →
      Except PartitionMappingError (List TimeWindow) →
      Except PartitionMappingError (List TimeWindow)
  | Except.ok (some tw), Except.ok rest => Except.ok (tw :: rest)
  | Except.ok none, Except.ok rest => Except.ok rest
  | Except.error e, _ => Except.error e
  | Except.ok _, Except.error e => Except.error e

/-- The `time_windows` list built by the loop of `_map_partitions`, with the
Python crash propagated from the iteration in which it occurs. -/
def buildWindows (from_def to_def : TimeWindowPartitionsDefinition)
    (start_offset end_offset current_time : Int) :
    List TimeWindow → Except PartitionMappingError (List TimeWindow)
  | [] => Except.ok []
  | w :: ws =>
    consWindow (mapWindow from_def to_def start_offset end_offset current_time w)
      (buildWindows from_def to_def start_offset end_offset current_time ws)

/-- Source lines 229-240: keep only windows that overlap the existence range
delimited by the target's first and last generatable windows, clipping each
kept window to that range; with a missing first or last window every window
is dropped. -/
def clipWindows (first_window last_window : Option TimeWindow) (tws : List TimeWindow) :
    List TimeWindow :=
  tws.filterMap (fun tw =>
    match first_window, last_window with
    | some f, some l =>
      if tw.start ≤ l.start ∧ f.endt ≤ tw.endt then
        some ⟨max tw.start f.start, min tw.endt l.endt⟩
      else none
    | _, _ => none)

/-- The `filtered_time_windows` of `_map_partitions`: the computed windows
clipped against the target definition's first/last generatable windows as of
`current_time`. -/
def clipAgainstExistence (to_partitions_def : TimeWindowPartitionsDefinition)
    (current_time : Int) (time_windows : List TimeWindow) : List TimeWindow :=
  clipWindows (get_first_partition_window to_partitions_def current_time)
    (get_last_partition_window to_partitions_def current_time) time_windows

/-- Source lines 250-254: the partition count of the final windows, counting
generatable keys inside each. -/
def countPartitions (to_partitions_def : TimeWindowPartitionsDefinition)
    (time_windows : List TimeWindow) : Nat :=
  (time_windows.map
    (fun tw => (get_partition_keys_in_time_window to_partitions_def tw).length)).sum

/-- Source lines 226-256: clip the computed windows against the target's
first/last generatable windows as of `current_time`, raise in strict mode
when clipping changed them, and otherwise recount partitions in the final
windows. -/
def finalizeMapping (to_partitions_def : TimeWindowPartitionsDefinition)
    (raise_on_non_existent_partition : Bool) (current_time : Int) :
    Except PartitionMappingError (List TimeWindow) →
      Except PartitionMappingError TimeWindowPartitionsSubset
  | Except.error e => Except.error e
  | Except.ok time_windows =>
    if raise_on_non_existent_partition ∧
        clipAgainstExistence to_partitions_def current_time time_windows ≠ time_windows then
      Except.error PartitionMappingError.DagsterInvalidInvocationError
    else
      Except.ok
        ⟨to_partitions_def,
          countPartitions to_partitions_def
            (clipAgainstExistence to_partitions_def current_time time_windows),
          clipAgainstExistence to_partitions_def current_time time_windows⟩

/-- Source `TimeWindowPartitionMapping._map_partitions`: reject offsets across
differing cron schedules, reject differing timezones, shortcut the identity
case, then offset, convert, clip, optionally raise when strict clipping
changed the windows, and recount partitions in the final windows. -/
def _map_partitions (from_partitions_def to_partitions_def : TimeWindowPartitionsDefinition)
    (from_partitions_subset : TimeWindowPartitionsSubset) (start_offset end_offset : Int)
    (raise_on_non_existent_partition : Bool) (current_time : Int) :
    Except PartitionMappingError TimeWindowPartitionsSubset :=
  if (start_offset ≠ 0 ∨ end_offset ≠ 0) ∧
      from_partitions_def.cron_schedule ≠ to_partitions_def.cron_schedule then
    Except.error (PartitionMappingError.DagsterInvalidDefinitionError MismatchedAttr.cron_schedule)
  else if to_partitions_def.timezone ≠ from_partitions_def.timezone then
    Except.error (PartitionMappingError.DagsterInvalidDefinitionError MismatchedAttr.timezone)
  else if from_partitions_def = to_partitions_def ∧ start_offset = 0 ∧ end_offset = 0 then
    Except.ok from_partitions_subset
  else
    finalizeMapping to_partitions_def raise_on_non_existent_partition current_time
      (buildWindows from_partitions_def to_partitions_def start_offset end_offset
        current_time from_partitions_subset.included_time_windows)

/-- Source `get_upstream_partitions_for_partitions`: map the downstream subset
through `_map_partitions` with the configured offsets in strict
raise-on-missing mode. -/
def get_upstream_partitions_for_partitions (m : TimeWindowPartitionMapping)
    (downstream_partitions_subset : TimeWindowPartitionsSubset)
    (upstream_partitions_def : TimeWindowPartitionsDefinition) (current_time : Int) :
    Except PartitionMappingError TimeWindowPartitionsSubset :=
  _map_partitions downstream_partitions_subset.partitions_def upstream_partitions_def
    downstream_partitions_subset m.start_offset m.end_offset true current_time

/-- Source `get_downstream_partitions_for_partitions`: map the upstream subset
through `_map_partitions` with both offsets negated and strict mode off. -/
def get_downstream_partitions_for_partitions (m : TimeWindowPartitionMapping)
    (upstream_partitions_subset : TimeWindowPartitionsSubset)
    (downstream_partitions_def : TimeWindowPartitionsDefinition) (current_time : Int) :
    Except PartitionMappingError TimeWindowPartitionsSubset :=
  _map_partitions upstream_partitions_subset.partitions_def downstream_partitions_def
    upstream_partitions_subset (-m.start_offset) (-m.end_offset) false current_time

/-- All individual partition keys covered by a subset's windows, in window
order. -/
def subsetPartitionKeys (s : TimeWindowPartitionsSubset) : List Int :=
  (s.included_time_windows.map (get_partition_keys_in_time_window s.partitions_def)).flatten

/-- Daily partitions definition over hours counted from 2022-01-01T00:00 UTC,
with start boundary at that instant and no end boundary. -/
def dailyDef : TimeWindowPartitionsDefinition := ⟨24, "UTC", 0, none⟩

/-- Hourly partitions definition over the same hour axis as `dailyDef`, with
start boundary at 2022-01-01T12:00 UTC. -/
def hourlyDef12 : TimeWindowPartitionsDefinition := ⟨1, "UTC", 12, none⟩

/-- Downstream subset holding the single daily partition "2022-07-04": hour
4416 is 184 days after 2022-01-01, the window is `[4416, 4440)`. -/
def subset_2022_07_04 : TimeWindowPartitionsSubset := ⟨dailyDef, 1, [⟨4416, 4440⟩]⟩

/-- Subset holding the single daily partition "2022-01-01", window
`[0, 24)`. -/
def dayZeroSubset : TimeWindowPartitionsSubset := ⟨dailyDef, 1, [⟨0, 24⟩]⟩

/-- Subset holding the single daily partition "2022-01-10", the last daily
partition generatable at hour 240 (= 2022-01-11T00:00). -/
def lastDaySubset : TimeWindowPartitionsSubset := ⟨dailyDef, 1, [⟨216, 240⟩]⟩

/-- Subset holding the single daily partition "2022-01-03", window
`[48, 72)`, interior at current time 240. -/
def midDaySubset : TimeWindowPartitionsSubset := ⟨dailyDef, 1, [⟨48, 72⟩]⟩

/-- Claim C3's round trip: map the subset in the downstream direction, then
map the result back in the upstream direction with the same mapping (the
downstream call applies the negated configured offsets, the upstream call the
configured ones, so the applied offsets cancel). -/
def roundTrip (m : TimeWindowPartitionMapping) (s : TimeWindowPartitionsSubset)
    (downstream_def : TimeWindowPartitionsDefinition) (current_time : Int) :
    Except PartitionMappingError TimeWindowPartitionsSubset :=
  (get_downstream_partitions_for_partitions m s downstream_def current_time).bind
    (fun t => get_upstream_partitions_for_partitions m t s.partitions_def current_time)

/-- Exact translation of a window by whole partition widths: start shifted by
`s` periods and end by `e` periods. -/
def shiftWindow (p s e : Int) (w : TimeWindow) : TimeWindow :=
  ⟨w.start + s * p, w.endt + e * p⟩

/-- Interior-window side conditions of the round-trip law: `w` is a
grid-aligned window of the walking definition `fd` whose boundaries, offset
by `(s, e)` partition widths, stay inside `fd`'s generatable range and map
strictly inside the target existence range `[fw, lw]`, without inverting. -/
def interiorWindow (fd : TimeWindowPartitionsDefinition) (s e ct : Int) (fw lw : TimeWindow)
    (w : TimeWindow) : Prop :=
  w.start % fd.cron_schedule = 0 ∧
  w.endt % fd.cron_schedule = 0 ∧
  fd.alignedStart ≤ w.start + s * fd.cron_schedule ∧
  w.start + s * fd.cron_schedule ≤ fd.boundEnd ct ∧
  fd.alignedStart ≤ w.endt + e * fd.cron_schedule ∧
  w.endt + e * fd.cron_schedule ≤ fd.boundEnd ct ∧
  w.start + s * fd.cron_schedule < w.endt + e * fd.cron_schedule ∧
  fw.start ≤ w.start + s * fd.cron_schedule ∧
  w.endt + e * fd.cron_schedule ≤ lw.endt ∧
  w.start + s * fd.cron_schedule ≤ lw.start ∧
  fw.endt ≤ w.endt + e * fd.cron_schedule

instance (fd : TimeWindowPartitionsDefinition) (s e ct : Int) (fw lw : TimeWindow)
    (w : TimeWindow) : Decidable (interiorWindow fd s e ct fw lw w) := by
  unfold interiorWindow
  infer_instance

/-!
Part 2: the run store.  The storage implementation of this repository is
present only through its test oracle
(`dagster_tests/storage_tests/utils/run_storage.py`), so the operations below
are modelled from the spec (§4.2), with the behaviors the tests pin kept
authoritative.
-/

deriving instance DecidableEq for Except

/-- Run status enum: `NOT_STARTED → STARTED → {SUCCESS, FAILURE, CANCELED}`,
plus `QUEUED` as a pre-`STARTED` state. -/
inductive DagsterRunStatus
  | NOT_STARTED
  | QUEUED
  | STARTED
  | SUCCESS
  | FAILURE
  | CANCELED
deriving DecidableEq, Repr

/-- Run-level event kinds handled by `handle_run_event`, as a closed
tagged-variant enum. -/
inductive DagsterEventType
  | PIPELINE_START
  | PIPELINE_SUCCESS
  | PIPELINE_FAILURE
  | PIPELINE_CANCELED
deriving DecidableEq, Repr

/-- Modelled from the spec: one execution record.  Tags are an association
list with unique keys (insertion-ordered, last write wins per key). -/
structure DagsterRun where
  run_id : String
  job_name : String
  status : DagsterRunStatus
  tags : List (String × String)
  root_run_id : Option String
  parent_run_id : Option String
deriving DecidableEq, Repr

/-- Typed run-store errors.  `RunGroupNotFoundError` is the error named by
the spec's failure taxonomy for `get_run_group`; the test oracle
(`test_fetch_run_group_not_found`) instead pins `DagsterRunNotFoundError`,
which the modelled operation raises. -/
inductive RunStorageError
  | DagsterRunAlreadyExists
  | DagsterRunNotFoundError
  | RunGroupNotFoundError
deriving DecidableEq, Repr

/-- Modelled from the spec: the run store's persisted state — run records in
creation order (oldest first).  The tag index is the derived view over the
runs' current tag sets (spec §9: "recompute the distinct value set for each
affected tag key from all remaining runs"). -/
structure RunStorage where
  runs : List DagsterRun
deriving DecidableEq, Repr

/-- The empty run store. -/
def RunStorage.empty : RunStorage := ⟨[]⟩

/-- All stored run ids, in creation order. -/
def runIds (st : RunStorage) : List String := st.runs.map DagsterRun.run_id

/-- Modelled from the spec: `add_run` fails with `DagsterRunAlreadyExists`
when the run id is present and otherwise appends the run. -/
def add_run (st : RunStorage) (run : DagsterRun) : Except RunStorageError RunStorage :=
  if run.run_id ∈ runIds st then Except.error RunStorageError.DagsterRunAlreadyExists
  else Except.ok ⟨st.runs ++ [run]⟩

/-- Association-list lookup of a tag key. -/
def lookupTag : List (String × String) → String → Option String
  | [], _ => none
  | (k0, v0) :: rest, k => if k0 = k then some v0 else lookupTag rest k

/-- Last-write-wins update of one tag key. -/
def setTag : List (String × String) → String → String → List (String × String)
  | [], k, v => [(k, v)]
  | (k0, v0) :: rest, k, v =>
    if k0 = k then (k, v) :: rest else (k0, v0) :: setTag rest k v

/-- Union of a tag mapping into a tag set, last value winning per key. -/
def setTags (tags : List (String × String)) (new_tags : List (String × String)) :
    List (String × String) :=
  new_tags.foldl (fun acc kv => setTag acc kv.1 kv.2) tags

/-- Modelled from the spec: `add_run_tags` unions tags into the run's tag
set, last value winning per key. -/
def add_run_tags (st : RunStorage) (run_id : String) (new_tags : List (String × String)) :
    Except RunStorageError RunStorage :=
  if run_id ∈ runIds st then
    Except.ok
      ⟨st.runs.map (fun r =>
        if r.run_id = run_id then { r with tags := setTags r.tags new_tags } else r)⟩
  else Except.error RunStorageError.DagsterRunNotFoundError

/-- First-occurrence deduplication, with an accumulator of already-seen
elements. -/
def dedupFirstAux (seen : List String) : List String → List String
  | [] => []
  | x :: xs =>
    if x ∈ seen then dedupFirstAux seen xs
    else x :: dedupFirstAux (x :: seen) xs

/-- First-occurrence deduplication: keeps each element at its earliest
position. -/
def dedupFirst (l : List String) : List String := dedupFirstAux [] l

/-- Tag keys of the store's current tag index, in first-appearance order
across runs in creation order. -/
def runTagKeys (st : RunStorage) : List String :=
  dedupFirst ((st.runs.map (fun r => r.tags.map Prod.fst)).flatten)

/-- Distinct values currently assigned to a tag key on some run, in run
creation order. -/
def runTagValues (st : RunStorage) (k : String) : List String :=
  dedupFirst (st.runs.filterMap (fun r => lookupTag r.tags k))

/-- The full tag index view: every key with its current value set. -/
def allRunTags (st : RunStorage) : List (String × List String) :=
  (runTagKeys st).map (fun k => (k, runTagValues st k))

/-- Budgeted prefix of the tag index: keys are taken in order while the
number of individual (key, value) entries fits the remaining budget; a key
whose values would exceed it, and every later key, are dropped. -/
def takeTagBudget : Nat → List (String × List String) → List (String × List String)
  | _, [] => []
  | budget, (k, vs) :: rest =>
    if vs.length ≤ budget then (k, vs) :: takeTagBudget (budget - vs.length) rest
    else []

/-- Modelled from the spec: `get_run_tags` returns the global tag-value
index, with `limit` bounding the total number of (key, value) entries. -/
def get_run_tags (st : RunStorage) (limit : Option Nat) : List (String × List String) :=
  match limit with
  | none => allRunTags st
  | some n => takeTagBudget n (allRunTags st)

/-- Total number of individual (key, value) index entries in a tag index
view. -/
def tagEntryCount (l : List (String × List String)) : Nat :=
  (l.map (fun kv => kv.2.length)).sum

/-- Modelled from the spec: the filter of `get_runs` — a conjunction over an
optional job name, a set of statuses (OR within the set), and tag
requirements (AND across keys). -/
structure RunsFilter where
  job_name : Option String
  statuses : List DagsterRunStatus
  tags : List (String × String)
deriving DecidableEq, Repr

/-- The trivial filter matching every run. -/
def RunsFilter.all : RunsFilter := ⟨none, [], []⟩

/-- Whether a run satisfies a filter. -/
def runMatches (f : RunsFilter) (r : DagsterRun) : Bool :=
  (match f.job_name with
   | none => true
   | some j => r.job_name == j) &&
  (f.statuses.isEmpty || f.statuses.contains r.status) &&
  f.tags.all (fun kv => lookupTag r.tags kv.1 == some kv.2)

/-- Stored runs in the default order of `get_runs`: creation-descending. -/
def orderedRuns (st : RunStorage) : List DagsterRun := st.runs.reverse

/-- Cursor application: drop every run at or before the cursor run's position
in the given order (all runs when the cursor is absent from it). -/
def afterCursor : Option String → List DagsterRun → List DagsterRun
  | none, l => l
  | some c, l => (l.dropWhile (fun r => r.run_id != c)).drop 1

/-- Modelled from the spec: `get_runs` applies the cursor in the default
creation-descending order, then the filter, then the limit. -/
def get_runs (st : RunStorage) (filters : RunsFilter) (cursor : Option String)
    (limit : Option Nat) : List DagsterRun :=
  match limit with
  | none => (afterCursor cursor (orderedRuns st)).filter (runMatches filters)
  | some n => ((afterCursor cursor (orderedRuns st)).filter (runMatches filters)).take n

/-- Cursor walk of `get_runs` with a fixed limit: fetch a page, then recurse
with the cursor set to the last run of the page, stopping on an empty
page. -/
def paginate (st : RunStorage) (filters : RunsFilter) (limit : Nat) :
    Nat → Option String → List DagsterRun
  | 0, _ => []
  | fuel + 1, cursor =>
    match (get_runs st filters cursor (some limit)).getLast? with
    | none => []
    | some last =>
      get_runs st filters cursor (some limit) ++
        paginate st filters limit fuel (some last.run_id)

/-- Modelled from the spec: the monotonic status transition of
`handle_run_event` — a START event only advances `NOT_STARTED`/`QUEUED` to
`STARTED`; terminal events set the terminal state unconditionally and
idempotently. -/
def newRunStatus (old : DagsterRunStatus) (event : DagsterEventType) : DagsterRunStatus :=
  match event with
  | DagsterEventType.PIPELINE_START =>
    match old with
    | DagsterRunStatus.NOT_STARTED => DagsterRunStatus.STARTED
    | DagsterRunStatus.QUEUED => DagsterRunStatus.STARTED
    | s => s
  | DagsterEventType.PIPELINE_SUCCESS => DagsterRunStatus.SUCCESS
  | DagsterEventType.PIPELINE_FAILURE => DagsterRunStatus.FAILURE
  | DagsterEventType.PIPELINE_CANCELED => DagsterRunStatus.CANCELED

/-- Modelled from the spec: `handle_run_event` applies the status machine to
the run with the given id and silently drops events for unknown run ids —
it never raises. -/
def handle_run_event (st : RunStorage) (run_id : String) (event : DagsterEventType) :
    Except RunStorageError RunStorage :=
  Except.ok
    ⟨st.runs.map (fun r =>
      if r.run_id = run_id then { r with status := newRunStatus r.status event } else r)⟩

/-- The root of a run's lineage tree: its `root_run_id` when set, otherwise
the run itself. -/
def rootOf (r : DagsterRun) : String := r.root_run_id.getD r.run_id

/-- Modelled from the spec and the test oracle: `get_run_group` fails with
`DagsterRunNotFoundError` for an unknown run id and otherwise returns the
root run id with every run sharing that root. -/
def get_run_group (st : RunStorage) (run_id : String) :
    Except RunStorageError (String × List DagsterRun) :=
  match st.runs.find? (fun r => r.run_id == run_id) with
  | none => Except.error RunStorageError.DagsterRunNotFoundError
  | some r =>
    Except.ok (rootOf r, st.runs.filter (fun q => rootOf q == rootOf r))

/-- Concrete replay of the `test_add_run_tags` scenario: two runs, overwrites
of `tag1` on the first run (`val1 → val2 → val3`) while the second run keeps
`val1`. -/
def c1Result : Except RunStorageError RunStorage :=
  (add_run RunStorage.empty ⟨"one", "foo", DagsterRunStatus.NOT_STARTED, [], none, none⟩).bind
    (fun st1 =>
      (add_run st1 ⟨"two", "bar", DagsterRunStatus.NOT_STARTED, [], none, none⟩).bind
        (fun st2 =>
          (add_run_tags st2 "one" [("tag1", "val1"), ("tag2", "val2")]).bind
            (fun st3 =>
              (add_run_tags st3 "two" [("tag1", "val1")]).bind
                (fun st4 =>
                  (add_run_tags st4 "one" [("tag1", "val2"), ("tag3", "val3")]).bind
                    (fun st5 => add_run_tags st5 "one" [("tag1", "val3")])))))

/-- The `test_add_run_tags` state just before the final overwrite: run "one"
holds `tag1: val2` and run "two" holds `tag1: val1`. -/
def c1MidStore : RunStorage :=
  ⟨[⟨"one", "foo", DagsterRunStatus.NOT_STARTED,
      [("tag1", "val2"), ("tag2", "val2"), ("tag3", "val3")], none, none⟩,
    ⟨"two", "bar", DagsterRunStatus.NOT_STARTED, [("tag1", "val1")], none, none⟩]⟩

/-- The `test_add_run_tags` state after the final overwrite of `tag1` to
`val3` on run "one". -/
def c1FinalStore : RunStorage :=
  ⟨[⟨"one", "foo", DagsterRunStatus.NOT_STARTED,
      [("tag1", "val3"), ("tag2", "val2"), ("tag3", "val3")], none, none⟩,
    ⟨"two", "bar", DagsterRunStatus.NOT_STARTED, [("tag1", "val1")], none, none⟩]⟩

/-- Concrete store of the `test_get_run_tags` scenario. -/
def c10Store : RunStorage :=
  ⟨[⟨"one", "foo", DagsterRunStatus.NOT_STARTED,
      [("tag1", "val1"), ("tag2", "val2"), ("tag3", "val3"), ("tag4", "val4"),
        ("x_1", "x_1"), ("x_2", "x_2")], none, none⟩,
    ⟨"two", "foo", DagsterRunStatus.NOT_STARTED, [("tag1", "val3")], none, none⟩]⟩

/-- Concrete store of the `test_fetch_by_status_cursored` scenario: four runs
in creation order `one, two, three, four`. -/
def c4Store : RunStorage :=
  ⟨[⟨"one", "some_pipeline", DagsterRunStatus.STARTED, [], none, none⟩,
    ⟨"two", "some_pipeline", DagsterRunStatus.STARTED, [], none, none⟩,
    ⟨"three", "some_pipeline", DagsterRunStatus.NOT_STARTED, [], none, none⟩,
    ⟨"four", "some_pipeline", DagsterRunStatus.STARTED, [], none, none⟩]⟩

/-- Filter selecting `STARTED` runs, as in `test_fetch_by_status_cursored`. -/
def startedFilter : RunsFilter := ⟨none, [DagsterRunStatus.STARTED], []⟩

/-- Concrete store of the `test_fetch_run_group` shape: a root with one
child and one grandchild, plus an unrelated run. -/
def c7Store : RunStorage :=
  ⟨[⟨"root", "foo_job", DagsterRunStatus.NOT_STARTED, [], none, none⟩,
    ⟨"child", "foo_job", DagsterRunStatus.NOT_STARTED, [], some "root", some "root"⟩,
    ⟨"grandchild", "foo_job", DagsterRunStatus.NOT_STARTED, [], some "root", some "child"⟩,
    ⟨"other", "foo_job", DagsterRunStatus.NOT_STARTED, [], none, none⟩]⟩

/-!
Theorems.
-/

/-- Helper: `resolveWindowStart` fails only with the Python crash. -/
theorem resolveWindowStart_error_eq {td : TimeWindowPartitionsDefinition} {ct : Int}
    {k : Option Int} {e : PartitionMappingError}
    (h : resolveWindowStart td ct k = Except.error e) :
    e = PartitionMappingError.NoneTypeCrash := by
  unfold resolveWindowStart at h
  split at h
  · exact absurd h (by simp)
  · split at h
    · exact absurd h (by simp)
    · injection h with h2
      exact h2.symm

/-- Helper: `resolveWindowEnd` fails only with the Python crash. -/
theorem resolveWindowEnd_error_eq {td : TimeWindowPartitionsDefinition} {ct : Int}
    {k : Option Int} {e : PartitionMappingError}
    (h : resolveWindowEnd td ct k = Except.error e) :
    e = PartitionMappingError.NoneTypeCrash := by
  unfold resolveWindowEnd at h
  split at h
  · exact absurd h (by simp)
  · split at h
    · exact absurd h (by simp)
    · injection h with h2
      exact h2.symm

/-- Helper: `combineBoundaries` fails only with errors of its two boundary
arguments. -/
theorem combineBoundaries_error_eq {A B : Except PartitionMappingError Int}
    {err : PartitionMappingError}
    (hA : ∀ x, A = Except.error x → x = PartitionMappingError.NoneTypeCrash)
    (hB : ∀ x, B = Except.error x → x = PartitionMappingError.NoneTypeCrash)
    (h : combineBoundaries A B = Except.error err) :
    err = PartitionMappingError.NoneTypeCrash := by
  cases A with
  | error x =>
    cases B <;> simp only [combineBoundaries] at h <;>
      (injection h with h2; subst h2; exact hA _ rfl)
  | ok ws =>
    cases B with
    | error y =>
      simp only [combineBoundaries] at h
      injection h with h2
      subst h2
      exact hB _ rfl
    | ok we =>
      simp only [combineBoundaries] at h
      split at h <;> exact absurd h (by simp)

/-- Helper: `mapWindow` fails only with the Python crash. -/
theorem mapWindow_error_eq {fd td : TimeWindowPartitionsDefinition} {s e ct : Int}
    {w : TimeWindow} {err : PartitionMappingError}
    (h : mapWindow fd td s e ct w = Except.error err) :
    err = PartitionMappingError.NoneTypeCrash := by
  unfold mapWindow at h
  split at h
  · exact combineBoundaries_error_eq (fun x hx => resolveWindowStart_error_eq hx)
      (fun x hx => resolveWindowEnd_error_eq hx) h
  · exact absurd h (by simp)

/-- Helper: `consWindow` fails only with errors of its two arguments. -/
theorem consWindow_error_eq {A : Except PartitionMappingError (Option TimeWindow)}
    {B : Except PartitionMappingError (List TimeWindow)} {err : PartitionMappingError}
    (hA : ∀ x, A = Except.error x → x = PartitionMappingError.NoneTypeCrash)
    (hB : ∀ x, B = Except.error x → x = PartitionMappingError.NoneTypeCrash)
    (h : consWindow A B = Except.error err) :
    err = PartitionMappingError.NoneTypeCrash := by
  cases A with
  | error x =>
    cases B <;> simp only [consWindow] at h <;>
      (injection h with h2; subst h2; exact hA _ rfl)
  | ok o =>
    cases B with
    | error y =>
      cases o <;> simp only [consWindow] at h <;>
        (injection h with h2; subst h2; exact hB _ rfl)
    | ok rest =>
      cases o <;> simp only [consWindow] at h <;> exact absurd h (by simp)

/-- Helper: `buildWindows` fails only with the Python crash. -/
theorem buildWindows_error_eq {fd td : TimeWindowPartitionsDefinition} {s e ct : Int}
    {l : List TimeWindow} {err : PartitionMappingError}
    (h : buildWindows fd td s e ct l = Except.error err) :
    err = PartitionMappingError.NoneTypeCrash := by
  induction l generalizing err with
  | nil => exact absurd h (by simp [buildWindows])
  | cons w ws ih =>
    unfold buildWindows at h
    exact consWindow_error_eq (fun x hx => mapWindow_error_eq hx) (fun x hx => ih hx) h

/-- Helper: `_map_partitions` raises a `DagsterInvalidDefinitionError` naming
the cron schedules whenever either offset is non-zero and the schedules
differ. -/
theorem map_partitions_cron_mismatch {fd td : TimeWindowPartitionsDefinition}
    {S : TimeWindowPartitionsSubset} {s e : Int} {r : Bool} {ct : Int}
    (ho : s ≠ 0 ∨ e ≠ 0) (hcron : fd.cron_schedule ≠ td.cron_schedule) :
    _map_partitions fd td S s e r ct =
      Except.error
        (PartitionMappingError.DagsterInvalidDefinitionError MismatchedAttr.cron_schedule) := by
  unfold _map_partitions
  rw [if_pos ⟨ho, hcron⟩]

/-- Helper: with matching timezones and zero offsets, `_map_partitions` never
raises a `DagsterInvalidDefinitionError`. -/
theorem map_partitions_zero_offsets_no_definition_error
    {fd td : TimeWindowPartitionsDefinition} {S : TimeWindowPartitionsSubset} {r : Bool}
    {ct : Int} (htz : td.timezone = fd.timezone) (a : MismatchedAttr) :
    _map_partitions fd td S 0 0 r ct ≠
      Except.error (PartitionMappingError.DagsterInvalidDefinitionError a) := by
  unfold _map_partitions
  rw [if_neg (by simp), if_neg (by simp [htz])]
  split
  · simp
  · cases hb : buildWindows fd td 0 0 ct S.included_time_windows with
    | error err =>
      have he := buildWindows_error_eq hb
      subst he
      simp [finalizeMapping]
    | ok tws =>
      simp only [finalizeMapping]
      split
      · simp
      · simp

/-- Helper: with mismatched timezones, `_map_partitions` raises a
`DagsterInvalidDefinitionError` naming one of the mismatched attributes. -/
theorem map_partitions_timezone_mismatch {fd td : TimeWindowPartitionsDefinition}
    {S : TimeWindowPartitionsSubset} {s e : Int} {r : Bool} {ct : Int}
    (htz : td.timezone ≠ fd.timezone) :
    ∃ a, _map_partitions fd td S s e r ct =
      Except.error (PartitionMappingError.DagsterInvalidDefinitionError a) := by
  by_cases hc : (s ≠ 0 ∨ e ≠ 0) ∧ fd.cron_schedule ≠ td.cron_schedule
  · exact ⟨MismatchedAttr.cron_schedule, by unfold _map_partitions; rw [if_pos hc]⟩
  · refine ⟨MismatchedAttr.timezone, ?_⟩
    unfold _map_partitions
    rw [if_neg hc, if_pos htz]

/-- Helper: with strict mode off, `_map_partitions` never raises the
invalid-partition-mapping error. -/
theorem map_partitions_no_raise_ne_invalid {fd td : TimeWindowPartitionsDefinition}
    {S : TimeWindowPartitionsSubset} {s e ct : Int} :
    _map_partitions fd td S s e false ct ≠
      Except.error PartitionMappingError.DagsterInvalidInvocationError := by
  unfold _map_partitions
  split
  · simp
  · split
    · simp
    · split
      · simp
      · cases hb : buildWindows fd td s e ct S.included_time_windows with
        | error err =>
          have he := buildWindows_error_eq hb
          subst he
          simp [finalizeMapping]
        | ok tws =>
          simp only [finalizeMapping]
          split
          · rename_i hc
            simp at hc
          · simp

/-- Claim C9 (implicit, from the code of
`get_downstream_partitions_for_partitions` lines 132-158 and
`get_upstream_partitions_for_partitions` lines 96-122): the downstream
direction equals the shared `_map_partitions` routine applied with the
negated configured offsets and strict mode off, while the upstream direction
applies the configured offsets with strict mode on. -/
theorem C9_direction_offset_inversion (m : TimeWindowPartitionMapping)
    (us ds : TimeWindowPartitionsSubset) (udef ddef : TimeWindowPartitionsDefinition)
    (ct : Int) :
    get_downstream_partitions_for_partitions m us ddef ct =
      _map_partitions us.partitions_def ddef us (-m.start_offset) (-m.end_offset) false ct ∧
    get_upstream_partitions_for_partitions m ds udef ct =
      _map_partitions ds.partitions_def udef ds m.start_offset m.end_offset true ct :=
  ⟨rfl, rfl⟩

/-- Claim C5: for two daily definitions with identical schedule and timezone,
mapping the single downstream partition "2022-07-04" (window `[4416, 4440)`
on the hour axis) upstream with `start_offset = -1`, `end_offset = 0` returns
exactly the upstream partitions "2022-07-03" and "2022-07-04" (keys 4392 and
4416, merged window `[4392, 4440)`). -/
theorem C5_daily_start_offset_concrete :
    get_upstream_partitions_for_partitions ⟨-1, 0⟩ subset_2022_07_04 dailyDef 4800 =
      Except.ok ⟨dailyDef, 2, [⟨4392, 4440⟩]⟩ ∧
    (get_upstream_partitions_for_partitions ⟨-1, 0⟩ subset_2022_07_04 dailyDef 4800).toOption.map
        subsetPartitionKeys = some [4392, 4416] :=
  ⟨rfl, rfl⟩

/-- Claim C6, counterexample to "if both offsets are zero and the timezones
match, the call succeeds": a daily-to-hourly upstream mapping with zero
offsets and matching timezones raises the invalid-partition-mapping error,
because the hourly definition's existence range starts at hour 12 and strict
clipping changes the mapped window `[0, 24)`. -/
theorem C6_counterexample :
    dailyDef.cron_schedule ≠ hourlyDef12.cron_schedule ∧
    hourlyDef12.timezone = dailyDef.timezone ∧
    get_upstream_partitions_for_partitions ⟨0, 0⟩ dayZeroSubset hourlyDef12 240 =
      Except.error PartitionMappingError.DagsterInvalidInvocationError :=
  ⟨by decide, rfl, rfl⟩

/-- Claim C6 (amended): for mapping calls between definitions with differing
cron schedules, a non-zero offset raises a `DagsterInvalidDefinitionError`
naming the cron schedules; a timezone mismatch always raises a
`DagsterInvalidDefinitionError` naming a mismatched attribute; and with both
offsets zero and matching timezones the call never raises a
`DagsterInvalidDefinitionError` (granularity translation proceeds, though the
strict upstream direction may still raise the invalid-partition-mapping
error). -/
theorem C6_cron_mismatch_rejection (m : TimeWindowPartitionMapping)
    (S : TimeWindowPartitionsSubset) (td : TimeWindowPartitionsDefinition) (ct : Int)
    (hcron : S.partitions_def.cron_schedule ≠ td.cron_schedule) :
    ((m.start_offset ≠ 0 ∨ m.end_offset ≠ 0) →
      get_upstream_partitions_for_partitions m S td ct =
        Except.error
          (PartitionMappingError.DagsterInvalidDefinitionError MismatchedAttr.cron_schedule) ∧
      get_downstream_partitions_for_partitions m S td ct =
        Except.error
          (PartitionMappingError.DagsterInvalidDefinitionError MismatchedAttr.cron_schedule)) ∧
    (td.timezone ≠ S.partitions_def.timezone →
      (∃ a, get_upstream_partitions_for_partitions m S td ct =
        Except.error (PartitionMappingError.DagsterInvalidDefinitionError a)) ∧
      (∃ a, get_downstream_partitions_for_partitions m S td ct =
        Except.error (PartitionMappingError.DagsterInvalidDefinitionError a))) ∧
    (m.start_offset = 0 → m.end_offset = 0 → td.timezone = S.partitions_def.timezone →
      (∀ a, get_upstream_partitions_for_partitions m S td ct ≠
        Except.error (PartitionMappingError.DagsterInvalidDefinitionError a)) ∧
      (∀ a, get_downstream_partitions_for_partitions m S td ct ≠
        Except.error (PartitionMappingError.DagsterInvalidDefinitionError a))) := by
  refine ⟨fun ho => ⟨?_, ?_⟩, fun htz => ⟨?_, ?_⟩, fun hs he htz => ⟨?_, ?_⟩⟩
  · exact map_partitions_cron_mismatch ho hcron
  · exact map_partitions_cron_mismatch (by rcases ho with h | h <;> [left; right] <;> omega) hcron
  · exact map_partitions_timezone_mismatch htz
  · exact map_partitions_timezone_mismatch htz
  · intro a
    unfold get_upstream_partitions_for_partitions
    rw [hs, he]
    exact map_partitions_zero_offsets_no_definition_error htz a
  · intro a
    unfold get_downstream_partitions_for_partitions
    rw [hs, he]
    simp only [neg_zero]
    exact map_partitions_zero_offsets_no_definition_error htz a

/-- Witness for C6 at a concrete input: a daily definition mapped to an
hourly one with `start_offset = 1` raises the cron-schedule
`DagsterInvalidDefinitionError`. -/
theorem C6_cron_mismatch_rejection_witness :
    dayZeroSubset.partitions_def.cron_schedule ≠ hourlyDef12.cron_schedule ∧
    get_upstream_partitions_for_partitions ⟨1, 0⟩ dayZeroSubset hourlyDef12 240 =
      Except.error
        (PartitionMappingError.DagsterInvalidDefinitionError MismatchedAttr.cron_schedule) :=
  ⟨by decide,
    ((C6_cron_mismatch_rejection ⟨1, 0⟩ dayZeroSubset hourlyDef12 240 (by decide)).1
      (Or.inl (by decide))).1⟩

/-- Claim C2: the strict upstream direction fails with the
invalid-partition-mapping error exactly when clipping the computed windows
against the target's first/last generatable windows as of `current_time`
changes them (given passable cron/timezone preconditions), and the
downstream direction never raises that error. -/
theorem C2_strict_raise_iff_clipping_changed (m : TimeWindowPartitionMapping)
    (S : TimeWindowPartitionsSubset) (udef : TimeWindowPartitionsDefinition) (ct : Int)
    (htz : udef.timezone = S.partitions_def.timezone)
    (hcron : m.start_offset = 0 ∧ m.end_offset = 0 ∨
      S.partitions_def.cron_schedule = udef.cron_schedule)
    (tws : List TimeWindow)
    (hb : buildWindows S.partitions_def udef m.start_offset m.end_offset ct
      S.included_time_windows = Except.ok tws) :
    (get_upstream_partitions_for_partitions m S udef ct =
        Except.error PartitionMappingError.DagsterInvalidInvocationError ↔
      ¬(S.partitions_def = udef ∧ m.start_offset = 0 ∧ m.end_offset = 0) ∧
        clipAgainstExistence udef ct tws ≠ tws) ∧
    ∀ (T : TimeWindowPartitionsSubset) (ddef : TimeWindowPartitionsDefinition) (ct2 : Int),
      get_downstream_partitions_for_partitions m T ddef ct2 ≠
        Except.error PartitionMappingError.DagsterInvalidInvocationError := by
  constructor
  · unfold get_upstream_partitions_for_partitions
    unfold _map_partitions
    have hcneg : ¬((m.start_offset ≠ 0 ∨ m.end_offset ≠ 0) ∧
        S.partitions_def.cron_schedule ≠ udef.cron_schedule) := by
      rcases hcron with ⟨h1, h2⟩ | h
      · simp [h1, h2]
      · simp [h]
    rw [if_neg hcneg, if_neg (by simp [htz])]
    by_cases hfp : S.partitions_def = udef ∧ m.start_offset = 0 ∧ m.end_offset = 0
    · rw [if_pos hfp]
      simp [hfp]
    · rw [if_neg hfp, hb]
      simp only [finalizeMapping]
      by_cases hcl : clipAgainstExistence udef ct tws ≠ tws
      · rw [if_pos ⟨by trivial, hcl⟩]
        simp [hfp, hcl]
      · rw [if_neg (by simp [hcl])]
        simp [hcl]
  · intro T ddef ct2
    exact map_partitions_no_raise_ne_invalid

/-- Witness for C2 at a concrete input: the daily `start_offset = -1` mapping
of "2022-07-04" computes the interior window `[4392, 4440)`, clipping changes
nothing, and the strict upstream call indeed does not raise. -/
theorem C2_strict_raise_iff_clipping_changed_witness :
    dailyDef.timezone = subset_2022_07_04.partitions_def.timezone ∧
    buildWindows subset_2022_07_04.partitions_def dailyDef (-1) 0 4800
      subset_2022_07_04.included_time_windows = Except.ok [⟨4392, 4440⟩] ∧
    ((get_upstream_partitions_for_partitions ⟨-1, 0⟩ subset_2022_07_04 dailyDef 4800 =
        Except.error PartitionMappingError.DagsterInvalidInvocationError) ↔
      ¬(subset_2022_07_04.partitions_def = dailyDef ∧ (-1 : Int) = 0 ∧ (0 : Int) = 0) ∧
        clipAgainstExistence dailyDef 4800 [⟨4392, 4440⟩] ≠ [⟨4392, 4440⟩]) :=
  ⟨rfl, rfl,
    (C2_strict_raise_iff_clipping_changed ⟨-1, 0⟩ subset_2022_07_04 dailyDef 4800 rfl
      (Or.inr rfl) [⟨4392, 4440⟩] (by rfl)).1⟩

/-- Helper: `floorAlign` fixes multiples of the period. -/
theorem floorAlign_eq_self {p t : Int} (hp : p ≠ 0) (h : p ∣ t) : floorAlign p t = t := by
  obtain ⟨c, rfl⟩ := h
  unfold floorAlign
  rw [Int.mul_ediv_cancel_left _ hp]

/-- Helper: `ceilAlign` fixes multiples of the period. -/
theorem ceilAlign_eq_self {p t : Int} (hp : p ≠ 0) (h : p ∣ t) : ceilAlign p t = t := by
  obtain ⟨c, rfl⟩ := h
  unfold ceilAlign
  have hneg : -(p * c) = p * (-c) := by ring
  rw [hneg, Int.mul_ediv_cancel_left _ hp]
  ring

/-- Helper: the previous window of a grid point `dt` is `[dt - p, dt)` when
that does not precede the definition's start. -/
theorem get_prev_partition_window_dvd {d : TimeWindowPartitionsDefinition} {dt : Int}
    (hp : d.cron_schedule ≠ 0) (h : d.cron_schedule ∣ dt) :
    get_prev_partition_window d dt =
      if d.alignedStart ≤ dt - d.cron_schedule then
        some ⟨dt - d.cron_schedule, dt⟩
      else none := by
  unfold get_prev_partition_window
  rw [ceilAlign_eq_self hp h]

/-- Helper: the next window of a grid point `dt` is `[dt, dt + p)` when it
ends within the generatable range. -/
theorem get_next_partition_window_dvd {d : TimeWindowPartitionsDefinition} {dt ct : Int}
    (hp : d.cron_schedule ≠ 0) (h : d.cron_schedule ∣ dt) :
    get_next_partition_window d dt ct =
      if dt + d.cron_schedule ≤ d.boundEnd ct then some ⟨dt, dt + d.cron_schedule⟩
      else none := by
  unfold get_next_partition_window
  rw [floorAlign_eq_self hp h]

/-- Helper: the backward offset walk from a grid point lands `k` periods
earlier when that stays at or after the definition's start. -/
theorem offsetWalk_neg_eq {d : TimeWindowPartitionsDefinition} {ct : Int}
    (hp : 0 < d.cron_schedule) :
    ∀ (k : Nat) (dt : Int), d.cron_schedule ∣ dt →
      d.alignedStart ≤ dt - (k : Int) * d.cron_schedule →
      offsetWalk d ct true k dt = some (dt - (k : Int) * d.cron_schedule)
  | 0, dt, _, _ => by simp [offsetWalk]
  | k + 1, dt, hdvd, hbound => by
    have hkp : 0 ≤ (k : Int) * d.cron_schedule :=
      mul_nonneg (by exact_mod_cast Nat.zero_le k) hp.le
    have hstep : d.alignedStart ≤ dt - d.cron_schedule := by
      have : dt - ((k : Int) + 1) * d.cron_schedule ≤ dt - d.cron_schedule := by nlinarith
      have hcast : ((k + 1 : Nat) : Int) = (k : Int) + 1 := by push_cast; ring
      rw [hcast] at hbound
      omega
    have hdvd2 : d.cron_schedule ∣ dt - d.cron_schedule := by
      exact dvd_sub hdvd dvd_rfl
    have hbound2 : d.alignedStart ≤ dt - d.cron_schedule - (k : Int) * d.cron_schedule := by
      have hcast : ((k + 1 : Nat) : Int) = (k : Int) + 1 := by push_cast; ring
      rw [hcast] at hbound
      have : dt - ((k : Int) + 1) * d.cron_schedule =
          dt - d.cron_schedule - (k : Int) * d.cron_schedule := by ring
      omega
    have ih := @offsetWalk_neg_eq d ct hp k (dt - d.cron_schedule) hdvd2 hbound2
    have heq : offsetWalk d ct true (k + 1) dt =
        offsetWalk d ct true k (dt - d.cron_schedule) := by
      simp only [offsetWalk, eq_self_iff_true, if_true]
      rw [get_prev_partition_window_dvd hp.ne' hdvd, if_pos hstep]
    rw [heq, ih]
    congr 1
    push_cast
    ring

/-- Helper: the forward offset walk from a grid point lands `k` periods later
when that stays within the generatable range. -/
theorem offsetWalk_pos_eq {d : TimeWindowPartitionsDefinition} {ct : Int}
    (hp : 0 < d.cron_schedule) :
    ∀ (k : Nat) (dt : Int), d.cron_schedule ∣ dt →
      dt + (k : Int) * d.cron_schedule ≤ d.boundEnd ct →
      offsetWalk d ct false k dt = some (dt + (k : Int) * d.cron_schedule)
  | 0, dt, _, _ => by simp [offsetWalk]
  | k + 1, dt, hdvd, hbound => by
    have hkp : 0 ≤ (k : Int) * d.cron_schedule :=
      mul_nonneg (by exact_mod_cast Nat.zero_le k) hp.le
    have hcast : ((k + 1 : Nat) : Int) = (k : Int) + 1 := by push_cast; ring
    rw [hcast] at hbound
    have hexpand : dt + ((k : Int) + 1) * d.cron_schedule =
        dt + d.cron_schedule + (k : Int) * d.cron_schedule := by ring
    have hstep : dt + d.cron_schedule ≤ d.boundEnd ct := by omega
    have hdvd2 : d.cron_schedule ∣ dt + d.cron_schedule := by
      exact dvd_add hdvd dvd_rfl
    have hbound2 : dt + d.cron_schedule + (k : Int) * d.cron_schedule ≤ d.boundEnd ct := by
      omega
    have ih := @offsetWalk_pos_eq d ct hp k (dt + d.cron_schedule) hdvd2 hbound2
    have heq : offsetWalk d ct false (k + 1) dt =
        offsetWalk d ct false k (dt + d.cron_schedule) := by
      simp only [offsetWalk, Bool.false_eq_true, if_false]
      rw [get_next_partition_window_dvd hp.ne' hdvd, if_pos hstep]
    rw [heq, ih]
    congr 1
    push_cast
    ring

/-- Helper: an interior offset of a grid point lands exactly `offset` periods
away. -/
theorem offsetted_datetime_interior {d : TimeWindowPartitionsDefinition} {ct dt o : Int}
    (hp : 0 < d.cron_schedule) (hdvd : d.cron_schedule ∣ dt)
    (hlow : d.alignedStart ≤ dt + o * d.cron_schedule)
    (hhigh : dt + o * d.cron_schedule ≤ d.boundEnd ct) :
    _offsetted_datetime d dt o ct = some (dt + o * d.cron_schedule) := by
  unfold _offsetted_datetime
  by_cases ho : o < 0
  · rw [decide_eq_true ho]
    have hcast : ((o.natAbs : Int)) = -o := Int.ofNat_natAbs_of_nonpos ho.le
    have hb : d.alignedStart ≤ dt - (o.natAbs : Int) * d.cron_schedule := by
      rw [hcast]
      have h3 : dt - -o * d.cron_schedule = dt + o * d.cron_schedule := by ring
      rw [h3]
      exact hlow
    rw [@offsetWalk_neg_eq d ct hp o.natAbs dt hdvd hb]
    congr 1
    rw [hcast]
    ring
  · rw [decide_eq_false ho]
    have hcast : ((o.natAbs : Int)) = o := Int.natAbs_of_nonneg (not_lt.mp ho)
    have hb : dt + (o.natAbs : Int) * d.cron_schedule ≤ d.boundEnd ct := by
      rw [hcast]
      exact hhigh
    rw [@offsetWalk_pos_eq d ct hp o.natAbs dt hdvd hb]
    congr 1
    rw [hcast]

/-- Helper: under interior conditions the start key resolves exactly `s`
periods from the window start. -/
theorem to_start_partition_key_interior {fd td : TimeWindowPartitionsDefinition}
    {s ct wstart : Int} (hp : 0 < fd.cron_schedule)
    (hcron : fd.cron_schedule = td.cron_schedule) (hdvd : fd.cron_schedule ∣ wstart)
    (hlow : fd.alignedStart ≤ wstart + s * fd.cron_schedule)
    (hhigh : wstart + s * fd.cron_schedule ≤ fd.boundEnd ct) :
    to_start_partition_key fd td s ct wstart = some (wstart + s * fd.cron_schedule) := by
  unfold to_start_partition_key
  rw [offsetted_datetime_interior hp hdvd hlow hhigh]
  show some (get_partition_key_for_timestamp td (wstart + s * fd.cron_schedule) false) = _
  unfold get_partition_key_for_timestamp
  rw [if_neg (by simp), ← hcron,
    floorAlign_eq_self hp.ne' (dvd_add hdvd (dvd_mul_left fd.cron_schedule s))]

/-- Helper: under interior conditions the end key resolves end-closed to the
window one period before the offsetted end boundary. -/
theorem to_end_partition_key_interior {fd td : TimeWindowPartitionsDefinition}
    {e ct wend : Int} (hp : 0 < fd.cron_schedule)
    (hcron : fd.cron_schedule = td.cron_schedule) (hdvd : fd.cron_schedule ∣ wend)
    (hlow : fd.alignedStart ≤ wend + e * fd.cron_schedule)
    (hhigh : wend + e * fd.cron_schedule ≤ fd.boundEnd ct) :
    to_end_partition_key fd td e ct wend =
      some (wend + e * fd.cron_schedule - fd.cron_schedule) := by
  unfold to_end_partition_key
  rw [offsetted_datetime_interior hp hdvd hlow hhigh]
  show some (get_partition_key_for_timestamp td (wend + e * fd.cron_schedule) true) = _
  unfold get_partition_key_for_timestamp
  rw [if_pos rfl, ← hcron,
    ceilAlign_eq_self hp.ne' (dvd_add hdvd (dvd_mul_left fd.cron_schedule e))]

/-- Helper: an interior window maps to its exact shift by the offsets. -/
theorem mapWindow_interior {fd td : TimeWindowPartitionsDefinition} {s e ct : Int}
    {fw lw : TimeWindow} {w : TimeWindow} (hp : 0 < fd.cron_schedule)
    (hcron : fd.cron_schedule = td.cron_schedule)
    (hint : interiorWindow fd s e ct fw lw w) :
    mapWindow fd td s e ct w = Except.ok (some (shiftWindow fd.cron_schedule s e w)) := by
  obtain ⟨hd1, hd2, h3, h4, h5, h6, h7, _, _, _, _⟩ := hint
  have hdvd1 : fd.cron_schedule ∣ w.start := Int.dvd_of_emod_eq_zero hd1
  have hdvd2 : fd.cron_schedule ∣ w.endt := Int.dvd_of_emod_eq_zero hd2
  have hts := to_start_partition_key_interior hp hcron hdvd1 h3 h4
  have hte := to_end_partition_key_interior hp hcron hdvd2 h5 h6
  unfold mapWindow
  rw [hts, hte, if_pos (Or.inl (by simp))]
  simp only [resolveWindowStart, resolveWindowEnd, combineBoundaries,
    start_time_for_partition_key, end_time_for_partition_key]
  rw [← hcron]
  have hsimp : w.endt + e * fd.cron_schedule - fd.cron_schedule + fd.cron_schedule =
      w.endt + e * fd.cron_schedule := by ring
  rw [hsimp, if_pos h7]
  rfl

/-- Helper: a list of interior windows maps to its exact shifts. -/
theorem buildWindows_interior {fd td : TimeWindowPartitionsDefinition} {s e ct : Int}
    {fw lw : TimeWindow} (hp : 0 < fd.cron_schedule)
    (hcron : fd.cron_schedule = td.cron_schedule) :
    ∀ {l : List TimeWindow}, (∀ w ∈ l, interiorWindow fd s e ct fw lw w) →
      buildWindows fd td s e ct l = Except.ok (l.map (shiftWindow fd.cron_schedule s e)) := by
  intro l
  induction l with
  | nil => intro _; rfl
  | cons w ws ih =>
    intro hint
    unfold buildWindows
    rw [mapWindow_interior hp hcron (hint w (List.mem_cons_self w ws)),
      ih (fun x hx => hint x (List.mem_cons_of_mem w hx))]
    rfl

/-- Helper: clipping keeps windows that lie strictly inside the existence
range unchanged. -/
theorem clipWindows_eq_self {f l : TimeWindow} {tws : List TimeWindow}
    (h : ∀ tw ∈ tws,
      f.start ≤ tw.start ∧ tw.endt ≤ l.endt ∧ tw.start ≤ l.start ∧ f.endt ≤ tw.endt) :
    clipWindows (some f) (some l) tws = tws := by
  induction tws with
  | nil => rfl
  | cons tw tws ih =>
    obtain ⟨h1, h2, h3, h4⟩ := h tw (List.mem_cons_self tw tws)
    unfold clipWindows
    simp only [List.filterMap_cons]
    rw [if_pos ⟨h3, h4⟩]
    have hmax : max tw.start f.start = tw.start := max_eq_left h1
    have hmin : min tw.endt l.endt = tw.endt := min_eq_left h2
    rw [hmax, hmin]
    have ih2 := ih (fun x hx => h x (List.mem_cons_of_mem tw hx))
    unfold clipWindows at ih2
    rw [ih2]

/-- Helper: `_map_partitions` on a subset of interior windows computes the
exact shifts, with no clipping and no strict-mode raise. -/
theorem map_partitions_interior (fd td : TimeWindowPartitionsDefinition)
    (S : TimeWindowPartitionsSubset) (s e : Int) (r : Bool) (ct : Int)
    (fw lw : TimeWindow) (hp : 0 < fd.cron_schedule)
    (hcron : fd.cron_schedule = td.cron_schedule) (htz : td.timezone = fd.timezone)
    (hfp : ¬(fd = td ∧ s = 0 ∧ e = 0))
    (hfw : get_first_partition_window td ct = some fw)
    (hlw : get_last_partition_window td ct = some lw)
    (hint : ∀ w ∈ S.included_time_windows, interiorWindow fd s e ct fw lw w) :
    _map_partitions fd td S s e r ct =
      Except.ok
        ⟨td,
          countPartitions td (S.included_time_windows.map (shiftWindow fd.cron_schedule s e)),
          S.included_time_windows.map (shiftWindow fd.cron_schedule s e)⟩ := by
  have hclip : clipAgainstExistence td ct
      (S.included_time_windows.map (shiftWindow fd.cron_schedule s e)) =
      S.included_time_windows.map (shiftWindow fd.cron_schedule s e) := by
    unfold clipAgainstExistence
    rw [hfw, hlw]
    apply clipWindows_eq_self
    intro tw htw
    obtain ⟨w, hw, rfl⟩ := List.mem_map.mp htw
    obtain ⟨_, _, _, _, _, _, _, h8, h9, h10, h11⟩ := hint w hw
    exact ⟨h8, h9, h10, h11⟩
  unfold _map_partitions
  rw [if_neg (by simp [hcron]), if_neg (by simp [htz]), if_neg hfp,
    buildWindows_interior hp hcron hint]
  simp only [finalizeMapping]
  rw [if_neg (by simp [hclip]), hclip]

/-- Helper: shifting by the negated offsets and back is the identity. -/
theorem shiftWindow_cancel (p s e : Int) (w : TimeWindow) :
    shiftWindow p s e (shiftWindow p (-s) (-e) w) = w := by
  unfold shiftWindow
  congr 1 <;> ring

/-- Helper: list version of `shiftWindow_cancel`. -/
theorem map_shiftWindow_cancel (p s e : Int) :
    ∀ (l : List TimeWindow),
      (l.map (shiftWindow p (-s) (-e))).map (shiftWindow p s e) = l := by
  intro l
  induction l with
  | nil => rfl
  | cons w ws ih => simp [ih, shiftWindow_cancel]

/-- Claim C3, counterexample to the unconditional superset law: over the same
daily definition (offset-compatible with itself), the round trip of the last
generatable partition `[216, 240)` with configured offsets `(0, 1)` (so the
downstream call applies `(0, -1)` and the upstream call `(0, +1)`) drops the
window to the inverted `[216, 216)` and returns the empty subset, which is
not a superset of the original. -/
theorem C3_counterexample :
    roundTrip ⟨0, 1⟩ lastDaySubset dailyDef 240 =
      Except.ok ⟨dailyDef, 0, []⟩ ∧
    subsetPartitionKeys lastDaySubset = [216] ∧
    ¬(216 : Int) ∈ subsetPartitionKeys (⟨dailyDef, 0, []⟩ : TimeWindowPartitionsSubset) :=
  ⟨rfl, rfl, by decide⟩

/-- Claim C3 (amended): over offset-compatible definitions, mapping a subset
downstream and then upstream with the same mapping returns exactly the
original subset when every window stays interior in both directions — no
offset walk leaves the generatable range, no window inverts, and no clipping
against either existence range occurs. -/
theorem C3_round_trip_interior (m : TimeWindowPartitionMapping)
    (S : TimeWindowPartitionsSubset) (ddef : TimeWindowPartitionsDefinition) (ct : Int)
    (fwd lwd fwu lwu : TimeWindow)
    (hp : 0 < S.partitions_def.cron_schedule)
    (hcron : S.partitions_def.cron_schedule = ddef.cron_schedule)
    (htz : ddef.timezone = S.partitions_def.timezone)
    (hcount : S.num_partitions = countPartitions S.partitions_def S.included_time_windows)
    (hfwd : get_first_partition_window ddef ct = some fwd)
    (hlwd : get_last_partition_window ddef ct = some lwd)
    (hfwu : get_first_partition_window S.partitions_def ct = some fwu)
    (hlwu : get_last_partition_window S.partitions_def ct = some lwu)
    (hdown : ∀ w ∈ S.included_time_windows,
      interiorWindow S.partitions_def (-m.start_offset) (-m.end_offset) ct fwd lwd w)
    (hup : ∀ w ∈ S.included_time_windows,
      interiorWindow ddef m.start_offset m.end_offset ct fwu lwu
        (shiftWindow S.partitions_def.cron_schedule (-m.start_offset) (-m.end_offset) w)) :
    roundTrip m S ddef ct = Except.ok S := by
  by_cases hfp : S.partitions_def = ddef ∧ m.start_offset = 0 ∧ m.end_offset = 0
  · obtain ⟨hdd, hs, he⟩ := hfp
    rw [← hdd] at htz ⊢
    unfold roundTrip get_downstream_partitions_for_partitions
      get_upstream_partitions_for_partitions _map_partitions
    rw [hs, he]
    simp [Except.bind]
  · have hfpd : ¬(S.partitions_def = ddef ∧ -m.start_offset = 0 ∧ -m.end_offset = 0) := by
      simpa [neg_eq_zero] using hfp
    have hdownmap := map_partitions_interior S.partitions_def ddef S (-m.start_offset)
      (-m.end_offset) false ct fwd lwd hp hcron htz hfpd hfwd hlwd hdown
    have hp2 : 0 < ddef.cron_schedule := hcron ▸ hp
    have hfpu : ¬(ddef = S.partitions_def ∧ m.start_offset = 0 ∧ m.end_offset = 0) := by
      intro hcontra
      exact hfp ⟨hcontra.1.symm, hcontra.2⟩
    unfold roundTrip get_downstream_partitions_for_partitions
    rw [hdownmap]
    show get_upstream_partitions_for_partitions m
      ⟨ddef, _, S.included_time_windows.map
        (shiftWindow S.partitions_def.cron_schedule (-m.start_offset) (-m.end_offset))⟩
      S.partitions_def ct = Except.ok S
    unfold get_upstream_partitions_for_partitions
    have hupmap := map_partitions_interior ddef S.partitions_def
      ⟨ddef,
        countPartitions ddef (S.included_time_windows.map
          (shiftWindow S.partitions_def.cron_schedule (-m.start_offset) (-m.end_offset))),
        S.included_time_windows.map
          (shiftWindow S.partitions_def.cron_schedule (-m.start_offset) (-m.end_offset))⟩
      m.start_offset m.end_offset true ct fwu lwu hp2 hcron.symm htz.symm hfpu hfwu hlwu
      (by
        intro w hw
        obtain ⟨w0, hw0, rfl⟩ := List.mem_map.mp hw
        exact hup w0 hw0)
    rw [hupmap]
    have hmaps : (S.included_time_windows.map
        (shiftWindow S.partitions_def.cron_schedule (-m.start_offset) (-m.end_offset))).map
          (shiftWindow ddef.cron_schedule m.start_offset m.end_offset) =
        S.included_time_windows := by
      rw [← hcron]
      exact map_shiftWindow_cancel S.partitions_def.cron_schedule m.start_offset
        m.end_offset S.included_time_windows
    rw [hmaps, ← hcount]

/-- Witness for the amended C3 at a concrete input: the interior daily
partition `[48, 72)` with configured offsets `(1, 0)` round-trips to exactly
itself. -/
theorem C3_round_trip_interior_witness :
    (0 : Int) < midDaySubset.partitions_def.cron_schedule ∧
    get_first_partition_window dailyDef 240 = some ⟨0, 24⟩ ∧
    get_last_partition_window dailyDef 240 = some ⟨216, 240⟩ ∧
    roundTrip ⟨1, 0⟩ midDaySubset dailyDef 240 = Except.ok midDaySubset :=
  ⟨by decide, by decide, by decide,
    C3_round_trip_interior ⟨1, 0⟩ midDaySubset dailyDef 240 ⟨0, 24⟩ ⟨216, 240⟩ ⟨0, 24⟩
      ⟨216, 240⟩ (by decide) (by decide) (by decide) (by decide) (by decide) (by decide)
      (by decide) (by decide) (by decide) (by decide)⟩

/-- Helper: membership in the first-occurrence deduplication. -/
theorem mem_dedupFirstAux {a : String} :
    ∀ (l : List String) (seen : List String),
      a ∈ dedupFirstAux seen l ↔ a ∈ l ∧ a ∉ seen := by
  intro l
  induction l with
  | nil => intro seen; simp [dedupFirstAux]
  | cons x xs ih =>
    intro seen
    unfold dedupFirstAux
    by_cases hx : x ∈ seen
    · rw [if_pos hx, ih]
      constructor
      · rintro ⟨h1, h2⟩
        exact ⟨List.mem_cons_of_mem x h1, h2⟩
      · rintro ⟨h1, h2⟩
        rcases List.mem_cons.mp h1 with h3 | h3
        · exact absurd (h3 ▸ hx) h2
        · exact ⟨h3, h2⟩
    · rw [if_neg hx]
      simp only [List.mem_cons, ih]
      constructor
      · rintro (rfl | ⟨h1, h2⟩)
        · exact ⟨Or.inl rfl, hx⟩
        · push_neg at h2
          exact ⟨Or.inr h1, h2.2⟩
      · rintro ⟨h1 | h1, h2⟩
        · exact Or.inl h1
        · by_cases hax : a = x
          · exact Or.inl hax
          · refine Or.inr ⟨h1, ?_⟩
            push_neg
            exact ⟨hax, h2⟩

/-- Helper: membership in `dedupFirst` is membership in the base list. -/
theorem mem_dedupFirst {a : String} {l : List String} : a ∈ dedupFirst l ↔ a ∈ l := by
  unfold dedupFirst
  rw [mem_dedupFirstAux]
  simp

/-- Helper: a value is in the tag-value index exactly when some stored run
currently holds it. -/
theorem mem_runTagValues {st : RunStorage} {k v : String} :
    v ∈ runTagValues st k ↔ ∃ r ∈ st.runs, lookupTag r.tags k = some v := by
  unfold runTagValues
  rw [mem_dedupFirst, List.mem_filterMap]

/-- Helper: `setTag` sets the given key. -/
theorem lookupTag_setTag_self (t : List (String × String)) (k v : String) :
    lookupTag (setTag t k v) k = some v := by
  induction t with
  | nil => simp [setTag, lookupTag]
  | cons kv rest ih =>
    unfold setTag
    by_cases h : kv.1 = k
    · rw [if_pos h]
      simp [lookupTag]
    · rw [if_neg h]
      show lookupTag ((kv.1, kv.2) :: setTag rest k v) k = some v
      unfold lookupTag
      rw [if_neg h]
      exact ih

/-- Helper: `setTag` leaves other keys unchanged. -/
theorem lookupTag_setTag_other (t : List (String × String)) (k v k0 : String) (hne : k0 ≠ k) :
    lookupTag (setTag t k v) k0 = lookupTag t k0 := by
  induction t with
  | nil =>
    show lookupTag [(k, v)] k0 = lookupTag [] k0
    unfold lookupTag
    rw [if_neg (fun h => hne h.symm)]
    rfl
  | cons kv rest ih =>
    unfold setTag
    by_cases h : kv.1 = k
    · rw [if_pos h]
      show lookupTag ((k, v) :: rest) k0 = lookupTag (kv :: rest) k0
      unfold lookupTag
      rw [if_neg (fun h2 => hne h2.symm), if_neg (by rw [h]; exact fun h2 => hne h2.symm)]
    · rw [if_neg h]
      show lookupTag ((kv.1, kv.2) :: setTag rest k v) k0 = lookupTag (kv :: rest) k0
      unfold lookupTag
      by_cases h2 : kv.1 = k0
      · rw [if_pos h2, if_pos h2]
      · rw [if_neg h2, if_neg h2]
        exact ih

/-- Helper: `setTags` leaves keys outside the mapping unchanged. -/
theorem lookupTag_setTags_not_mem :
    ∀ (new_tags : List (String × String)) (t : List (String × String)) (k : String),
      k ∉ new_tags.map Prod.fst →
      lookupTag (setTags t new_tags) k = lookupTag t k := by
  intro new_tags
  induction new_tags with
  | nil => intro t k _; rfl
  | cons kv rest ih =>
    intro t k hk
    simp only [List.map_cons, List.mem_cons] at hk
    push_neg at hk
    show lookupTag (setTags (setTag t kv.1 kv.2) rest) k = lookupTag t k
    rw [ih (setTag t kv.1 kv.2) k hk.2, lookupTag_setTag_other t kv.1 kv.2 k hk.1]

/-- Helper: `setTags` with pairwise-distinct keys sets every pair of the
mapping. -/
theorem lookupTag_setTags_mem :
    ∀ (new_tags : List (String × String)) (t : List (String × String)) (k v : String),
      (new_tags.map Prod.fst).Nodup → (k, v) ∈ new_tags →
      lookupTag (setTags t new_tags) k = some v := by
  intro new_tags
  induction new_tags with
  | nil => intro t k v _ h; cases h
  | cons kv rest ih =>
    intro t k v hnodup hmem
    have hnodup2 := List.nodup_cons.mp hnodup
    rcases List.mem_cons.mp hmem with h | h
    · subst h
      show lookupTag (setTags (setTag t k v) rest) k = some v
      rw [lookupTag_setTags_not_mem rest (setTag t k v) k hnodup2.1,
        lookupTag_setTag_self]
    · show lookupTag (setTags (setTag t kv.1 kv.2) rest) k = some v
      exact ih (setTag t kv.1 kv.2) k v hnodup2.2 h

/-- Helper: stored runs with equal ids are equal when the id list has no
duplicates. -/
theorem run_id_injective {st : RunStorage} (hids : (runIds st).Nodup) {q r : DagsterRun}
    (hq : q ∈ st.runs) (hr : r ∈ st.runs) (h : q.run_id = r.run_id) : q = r :=
  List.inj_on_of_nodup_map hids hq hr h

/-- Claim C1, counterexample to historical retention: replaying the
`test_add_run_tags` scenario (`tag1` on run "one": `val1 → val2 → val3`,
while run "two" holds `val1`), the final index reports `tag1` as
`{val3, val1}` — the values currently held by some run — and the
historically-seen `val2` is absent, contradicting "retains every value ever
assigned". -/
theorem C1_counterexample :
    c1Result.toOption.map (fun st => get_run_tags st none) =
      some [("tag1", ["val3", "val1"]), ("tag2", ["val2"]), ("tag3", ["val3"])] ∧
    c1Result.toOption.map (fun st => (runTagValues st "tag1").contains "val2") = some false :=
  ⟨rfl, rfl⟩

/-- Claim C1 (amended): the tag-value index reflects the values currently
assigned on some run, not the historical ones — after a successful
`add_run_tags`, every newly assigned value is reported for its key, and a
key's previous value on the updated run disappears from the index as soon as
no other run holds it. -/
theorem C1_tag_index_current_values (st st' : RunStorage) (rid : String)
    (new_tags : List (String × String))
    (hkeys : (new_tags.map Prod.fst).Nodup)
    (hids : (runIds st).Nodup)
    (h : add_run_tags st rid new_tags = Except.ok st') :
    (∀ kv ∈ new_tags, kv.2 ∈ runTagValues st' kv.1) ∧
    (∀ (k oldv newv : String) (r : DagsterRun), r ∈ st.runs → r.run_id = rid →
      lookupTag r.tags k = some oldv → (k, newv) ∈ new_tags → newv ≠ oldv →
      (∀ q ∈ st.runs, q.run_id ≠ rid → lookupTag q.tags k ≠ some oldv) →
      oldv ∉ runTagValues st' k) := by
  unfold add_run_tags at h
  split at h
  · rename_i hc
    injection h with h2
    subst h2
    constructor
    · intro kv hkv
      obtain ⟨r0, hr0, hid0⟩ := List.mem_map.mp hc
      rw [mem_runTagValues]
      refine ⟨{ r0 with tags := setTags r0.tags new_tags }, ?_, ?_⟩
      · exact List.mem_map.mpr ⟨r0, hr0, by rw [if_pos hid0]⟩
      · exact lookupTag_setTags_mem new_tags r0.tags kv.1 kv.2 hkeys hkv
    · intro k oldv newv r hr hrid hold hnewmem hneq hothers hcontra
      rw [mem_runTagValues] at hcontra
      obtain ⟨q', hq', hlook⟩ := hcontra
      obtain ⟨q, hq, rfl⟩ := List.mem_map.mp hq'
      by_cases hqid : q.run_id = rid
      · have hqr : q = r := run_id_injective hids hq hr (hqid.trans hrid.symm)
        subst hqr
        rw [if_pos hqid] at hlook
        have hnew : lookupTag (setTags q.tags new_tags) k = some newv :=
          lookupTag_setTags_mem new_tags q.tags k newv hkeys hnewmem
        rw [hnew] at hlook
        injection hlook with h3
        exact hneq h3
      · rw [if_neg hqid] at hlook
        exact hothers q hq hqid hlook
  · exact absurd h (by simp)

/-- Witness for the amended C1 at the test's concrete state: overwriting
`tag1` from `val2` to `val3` on run "one" makes `val3` appear and `val2`
disappear from the index, since only run "one" held `val2`. -/
theorem C1_tag_index_current_values_witness :
    add_run_tags c1MidStore "one" [("tag1", "val3")] = Except.ok c1FinalStore ∧
    "val3" ∈ runTagValues c1FinalStore "tag1" ∧
    "val2" ∉ runTagValues c1FinalStore "tag1" :=
  ⟨by decide,
    (C1_tag_index_current_values c1MidStore c1FinalStore "one" [("tag1", "val3")]
        (by decide) (by decide) (by decide)).1 ("tag1", "val3") (by decide),
    (C1_tag_index_current_values c1MidStore c1FinalStore "one" [("tag1", "val3")]
        (by decide) (by decide) (by decide)).2 "tag1" "val2" "val3"
      ⟨"one", "foo", DagsterRunStatus.NOT_STARTED,
        [("tag1", "val2"), ("tag2", "val2"), ("tag3", "val3")], none, none⟩
      (by decide) (by decide) (by decide) (by decide) (by decide) (by decide)⟩

/-- Claim C7, counterexample to the error type: the test oracle pins
`DagsterRunNotFoundError` for an unknown run id, not the
`RunGroupNotFoundError` the claim names. -/
theorem C7_counterexample :
    get_run_group c7Store "missing" = Except.error RunStorageError.DagsterRunNotFoundError ∧
    get_run_group c7Store "missing" ≠ Except.error RunStorageError.RunGroupNotFoundError := by
  decide

/-- Claim C7 (amended): `get_run_group` fails with `DagsterRunNotFoundError`
for an unknown run id, and for a stored run returns its root run id together
with exactly the stored runs sharing that root. -/
theorem C7_run_group (st : RunStorage) (rid : String) (hids : (runIds st).Nodup) :
    (rid ∉ runIds st →
      get_run_group st rid = Except.error RunStorageError.DagsterRunNotFoundError) ∧
    (∀ r ∈ st.runs, r.run_id = rid →
      get_run_group st rid =
        Except.ok (rootOf r, st.runs.filter (fun q => rootOf q == rootOf r)) ∧
      ∀ q ∈ st.runs,
        (q ∈ st.runs.filter (fun q2 => rootOf q2 == rootOf r) ↔ rootOf q = rootOf r)) := by
  constructor
  · intro habs
    cases hf : st.runs.find? (fun r => r.run_id == rid) with
    | none =>
      unfold get_run_group
      rw [hf]
    | some r0 =>
      have h2 := List.mem_of_find?_eq_some hf
      have h0 := List.find?_some hf
      exact absurd (List.mem_map.mpr ⟨r0, h2, eq_of_beq h0⟩) habs
  · intro r hr hrid
    cases hf : st.runs.find? (fun q => q.run_id == rid) with
    | none =>
      have := List.find?_eq_none.mp hf r hr
      exact absurd (beq_iff_eq.mpr hrid) this
    | some r0 =>
      have hr0mem := List.mem_of_find?_eq_some hf
      have hr0beq := List.find?_some hf
      have hr0id : r0.run_id = rid := eq_of_beq hr0beq
      have her : r0 = r := run_id_injective hids hr0mem hr (hr0id.trans hrid.symm)
      subst her
      constructor
      · unfold get_run_group
        rw [hf]
      · intro q hq
        rw [List.mem_filter]
        constructor
        · rintro ⟨_, hb⟩
          exact eq_of_beq hb
        · intro he
          exact ⟨hq, beq_iff_eq.mpr he⟩

/-- Witness for the amended C7 at a concrete input: an unknown run id on the
concrete lineage store fails with `DagsterRunNotFoundError`. -/
theorem C7_run_group_witness :
    (runIds c7Store).Nodup ∧ "missing" ∉ runIds c7Store ∧
    get_run_group c7Store "missing" = Except.error RunStorageError.DagsterRunNotFoundError :=
  ⟨by decide, by decide, (C7_run_group c7Store "missing" (by decide)).1 (by decide)⟩

/-- Claim C8: `handle_run_event` for a run id with no stored run returns
without error and leaves the store — in particular every stored run's
status — unchanged. -/
theorem C8_unknown_run_event_dropped (st : RunStorage) (rid : String)
    (event : DagsterEventType) (h : rid ∉ runIds st) :
    handle_run_event st rid event = Except.ok st := by
  unfold handle_run_event
  have hmap : st.runs.map (fun r =>
      if r.run_id = rid then { r with status := newRunStatus r.status event } else r) =
      st.runs := by
    have hcong : ∀ r ∈ st.runs, (if r.run_id = rid
        then { r with status := newRunStatus r.status event } else r) = id r :=
      fun r hr => if_neg (fun hc => h (List.mem_map.mpr ⟨r, hr, hc⟩))
    rw [List.map_congr_left hcong, List.map_id]
  rw [hmap]

/-- Witness for C8 at a concrete input: an event for an absent run id leaves
the four-run store untouched. -/
theorem C8_unknown_run_event_dropped_witness :
    "missing" ∉ runIds c4Store ∧
    handle_run_event c4Store "missing" DagsterEventType.PIPELINE_SUCCESS =
      Except.ok c4Store :=
  ⟨by decide,
    C8_unknown_run_event_dropped c4Store "missing" DagsterEventType.PIPELINE_SUCCESS
      (by decide)⟩

/-- Helper: the budgeted tag view never exceeds the entry budget. -/
theorem tagEntryCount_takeTagBudget :
    ∀ (l : List (String × List String)) (n : Nat),
      tagEntryCount (takeTagBudget n l) ≤ n := by
  intro l
  induction l with
  | nil => intro n; simp [takeTagBudget, tagEntryCount]
  | cons kv rest ih =>
    intro n
    obtain ⟨k, vs⟩ := kv
    unfold takeTagBudget
    split
    · rename_i hle
      have hr := ih (n - vs.length)
      simp only [tagEntryCount, List.map_cons, List.sum_cons] at hr ⊢
      omega
    · simp [tagEntryCount]

/-- Helper: the budgeted tag view is an initial segment of the full view. -/
theorem takeTagBudget_append :
    ∀ (l : List (String × List String)) (n : Nat), ∃ t, l = takeTagBudget n l ++ t := by
  intro l
  induction l with
  | nil => intro n; exact ⟨[], rfl⟩
  | cons kv rest ih =>
    intro n
    obtain ⟨k, vs⟩ := kv
    unfold takeTagBudget
    split
    · obtain ⟨t, ht⟩ := ih (n - vs.length)
      exact ⟨t, by rw [List.cons_append, ← ht]⟩
    · exact ⟨(k, vs) :: rest, rfl⟩

/-- Claim C10: `get_run_tags` with a limit bounds the total number of
individual (key, value) index entries, returning an initial segment of keys
each with its complete value set; on the `test_get_run_tags` store, limit 3
returns `tag1` with both its values plus `tag2`, dropping `tag3` and every
later key. -/
theorem C10_run_tags_entry_budget :
    (∀ (st : RunStorage) (n : Nat),
      tagEntryCount (get_run_tags st (some n)) ≤ n ∧
      ∃ t, get_run_tags st none = get_run_tags st (some n) ++ t) ∧
    get_run_tags c10Store (some 3) = [("tag1", ["val1", "val3"]), ("tag2", ["val2"])] ∧
    get_run_tags c10Store none =
      [("tag1", ["val1", "val3"]), ("tag2", ["val2"]), ("tag3", ["val3"]),
        ("tag4", ["val4"]), ("x_1", ["x_1"]), ("x_2", ["x_2"])] :=
  ⟨fun st n => ⟨tagEntryCount_takeTagBudget (allRunTags st) n,
    takeTagBudget_append (allRunTags st) n⟩, rfl, rfl⟩

/-- Helper: `dropWhile` on a list split at the cursor run's first occurrence
stops exactly at the cursor run. -/
theorem dropWhile_cursor_split (x : DagsterRun) :
    ∀ (l1 l2 : List DagsterRun), (∀ y ∈ l1, y.run_id ≠ x.run_id) →
      (l1 ++ x :: l2).dropWhile (fun r => r.run_id != x.run_id) = x :: l2 := by
  intro l1
  induction l1 with
  | nil =>
    intro l2 _
    rw [List.nil_append, List.dropWhile_cons, if_neg (by simp)]
  | cons y l1 ih =>
    intro l2 h
    rw [List.cons_append, List.dropWhile_cons,
      if_pos (bne_iff_ne.mpr (h y (List.mem_cons_self y l1)))]
    exact ih l2 (fun z hz => h z (List.mem_cons_of_mem y hz))

/-- Helper: the cursor excludes the cursor run and everything at or before
its first occurrence in the given order. -/
theorem afterCursor_split (l1 l2 : List DagsterRun) (x : DagsterRun)
    (h : ∀ y ∈ l1, y.run_id ≠ x.run_id) :
    afterCursor (some x.run_id) (l1 ++ x :: l2) = l2 := by
  show ((l1 ++ x :: l2).dropWhile (fun r => r.run_id != x.run_id)).drop 1 = l2
  rw [dropWhile_cursor_split x l1 l2 h]
  rfl

/-- Helper: splitting a run list at an element is unique when neither prefix
holds the element's run id. -/
theorem append_cons_inj :
    ∀ (a c b d : List DagsterRun) (x : DagsterRun),
      (∀ y ∈ a, y.run_id ≠ x.run_id) → (∀ y ∈ c, y.run_id ≠ x.run_id) →
      a ++ x :: b = c ++ x :: d → a = c ∧ b = d := by
  intro a
  induction a with
  | nil =>
    intro c b d x _ hc h
    cases c with
    | nil =>
      rw [List.nil_append, List.nil_append] at h
      injection h with _ h2
      exact ⟨rfl, h2⟩
    | cons c0 cs =>
      rw [List.nil_append, List.cons_append] at h
      injection h with h1 _
      exact absurd (by rw [← h1]) (hc c0 (List.mem_cons_self c0 cs))
  | cons a0 as ih =>
    intro c b d x ha hc h
    cases c with
    | nil =>
      rw [List.cons_append, List.nil_append] at h
      injection h with h1 _
      exact absurd (by rw [h1]) (ha a0 (List.mem_cons_self a0 as))
    | cons c0 cs =>
      rw [List.cons_append, List.cons_append] at h
      injection h with h1 h2
      obtain ⟨hac, hbd⟩ := ih cs b d x (fun y hy => ha y (List.mem_cons_of_mem a0 hy))
        (fun y hy => hc y (List.mem_cons_of_mem c0 hy)) h2
      exact ⟨by rw [h1, hac], hbd⟩

/-- Helper: facts about a run list split at one element, under id
uniqueness: the prefix holds no run with the element's id, and the id facts
restrict to the suffix. -/
theorem split_ids_facts {L A B : List DagsterRun} {x : DagsterRun}
    (hids : (L.map DagsterRun.run_id).Nodup) (hsplit : L = A ++ x :: B) :
    (∀ y ∈ A, y.run_id ≠ x.run_id) ∧ x.run_id ∉ B.map DagsterRun.run_id ∧
      (B.map DagsterRun.run_id).Nodup := by
  subst hsplit
  rw [List.map_append, List.map_cons, List.nodup_append] at hids
  obtain ⟨_, h2, h3⟩ := hids
  rw [List.nodup_cons] at h2
  refine ⟨?_, h2.1, h2.2⟩
  intro y hy hcontra
  have hymem : y.run_id ∈ A.map DagsterRun.run_id := List.mem_map_of_mem DagsterRun.run_id hy
  have hxin : x.run_id ∈ x.run_id :: B.map DagsterRun.run_id :=
    List.mem_cons_self x.run_id _
  exact (List.disjoint_left.mp h3) (hcontra ▸ hymem) hxin

/-- Helper: walking `get_runs` with a fixed limit and successive cursors over
the suffix strictly after the cursor run enumerates exactly the matching
runs of that suffix. -/
theorem paginate_eq_filter (st : RunStorage) (filters : RunsFilter) (limit : Nat)
    (hlim : 0 < limit) (hids : ((orderedRuns st).map DagsterRun.run_id).Nodup) :
    ∀ (fuel : Nat) (cursor : Option String) (suf : List DagsterRun),
      (cursor = none ∧ orderedRuns st = suf ∨
        ∃ (c : DagsterRun) (pre : List DagsterRun), cursor = some c.run_id ∧
          orderedRuns st = pre ++ c :: suf ∧ (∀ y ∈ pre, y.run_id ≠ c.run_id)) →
      suf.length ≤ fuel →
      paginate st filters limit fuel cursor = suf.filter (runMatches filters) := by
  intro fuel
  induction fuel with
  | zero =>
    intro cursor suf _ hlen
    have hnil : suf = [] := List.eq_nil_of_length_eq_zero (Nat.le_zero.mp hlen)
    subst hnil
    rfl
  | succ fuel ih =>
    intro cursor suf hcur hlen
    have hac : afterCursor cursor (orderedRuns st) = suf := by
      rcases hcur with ⟨rfl, rfl⟩ | ⟨c, pre, rfl, heq, hpre⟩
      · rfl
      · rw [heq]
        exact afterCursor_split pre suf c hpre
    have hpage : get_runs st filters cursor (some limit) =
        (suf.filter (runMatches filters)).take limit := by
      unfold get_runs
      rw [hac]
    by_cases hF : suf.filter (runMatches filters) = []
    · unfold paginate
      rw [hpage, hF, List.take_nil]
      rfl
    · have hA : ∃ A, orderedRuns st = A ++ suf := by
        rcases hcur with ⟨rfl, rfl⟩ | ⟨c, pre, rfl, heq, hpre⟩
        · exact ⟨[], rfl⟩
        · exact ⟨pre ++ [c], by rw [heq]; simp⟩
      obtain ⟨A, hAeq⟩ := hA
      have hsufsub : suf.Sublist (orderedRuns st) := by
        rw [hAeq]
        exact List.sublist_append_right A suf
      have hFsub : (suf.filter (runMatches filters)).Sublist (orderedRuns st) :=
        (List.filter_sublist suf).trans hsufsub
      have hFids : ((suf.filter (runMatches filters)).map DagsterRun.run_id).Nodup :=
        List.Nodup.sublist (List.Sublist.map DagsterRun.run_id hFsub) hids
      have hne : (suf.filter (runMatches filters)).take limit ≠ [] := by
        rw [ne_eq, List.take_eq_nil_iff]
        push_neg
        exact ⟨by omega, hF⟩
      cases hlast : ((suf.filter (runMatches filters)).take limit).getLast? with
      | none =>
        rw [List.getLast?_eq_getLast _ hne] at hlast
        cases hlast
      | some last =>
        have hgl : ((suf.filter (runMatches filters)).take limit).getLast hne = last := by
          have h0 := List.getLast?_eq_getLast
            ((suf.filter (runMatches filters)).take limit) hne
          rw [h0] at hlast
          injection hlast with h1
        have htake : ((suf.filter (runMatches filters)).take limit).dropLast ++ [last] =
            (suf.filter (runMatches filters)).take limit := by
          rw [← hgl]
          exact List.dropLast_append_getLast hne
        have hFsplit2 : suf.filter (runMatches filters) =
            ((suf.filter (runMatches filters)).take limit).dropLast ++
              last :: (suf.filter (runMatches filters)).drop limit := by
          conv_lhs => rw [← List.take_append_drop limit (suf.filter (runMatches filters)),
            ← htake, List.append_assoc]
          rfl
        have hlastmem : last ∈ (suf.filter (runMatches filters)).take limit := by
          rw [← hgl]
          exact List.getLast_mem hne
        have hlastF : last ∈ suf.filter (runMatches filters) :=
          List.take_subset limit _ hlastmem
        have hq : runMatches filters last = true := List.of_mem_filter hlastF
        have hlastsuf : last ∈ suf := List.mem_of_mem_filter hlastF
        obtain ⟨s2, t2, hsplit⟩ := List.append_of_mem hlastsuf
        have hsplitL : orderedRuns st = (A ++ s2) ++ last :: t2 := by
          rw [hAeq, hsplit]
          simp
        obtain ⟨hpreL, _, _⟩ := split_ids_facts hids hsplitL
        have hs2 : ∀ y ∈ s2, y.run_id ≠ last.run_id :=
          fun y hy => hpreL y (List.mem_append_right A hy)
        have hFsplit : suf.filter (runMatches filters) =
            s2.filter (runMatches filters) ++ last :: t2.filter (runMatches filters) := by
          rw [hsplit, List.filter_append, List.filter_cons_of_pos hq]
        obtain ⟨hdropLast, _, _⟩ := split_ids_facts hFids hFsplit2
        obtain ⟨_, hdrop⟩ := append_cons_inj
          ((suf.filter (runMatches filters)).take limit).dropLast
          (s2.filter (runMatches filters))
          ((suf.filter (runMatches filters)).drop limit)
          (t2.filter (runMatches filters)) last hdropLast
          (fun y hy => hs2 y (List.mem_of_mem_filter hy))
          (hFsplit2.symm.trans hFsplit)
        have hlen2 : t2.length ≤ fuel := by
          have hsl : suf.length = s2.length + (t2.length + 1) := by
            rw [hsplit]
            simp [List.length_append]
          omega
        have hrec := ih (some last.run_id) t2
          (Or.inr ⟨last, A ++ s2, rfl, hsplitL, hpreL⟩) hlen2
        unfold paginate
        rw [hpage, hlast]
        show (suf.filter (runMatches filters)).take limit ++
            paginate st filters limit fuel (some last.run_id) =
          suf.filter (runMatches filters)
        rw [hrec, ← hdrop]
        exact List.take_append_drop limit (suf.filter (runMatches filters))

/-- Claim C4: with unique run ids, `get_runs` with a cursor returns exactly
the matching runs strictly after the cursor run's position in the default
creation-descending order, and walking `get_runs` with a fixed positive
limit and successive cursors enumerates the full matching run set with no
duplicates and no omissions. -/
theorem C4_cursor_pagination (st : RunStorage) (filters : RunsFilter) (limit fuel : Nat)
    (hids : (runIds st).Nodup) (hlim : 0 < limit) (hfuel : st.runs.length ≤ fuel) :
    paginate st filters limit fuel none = get_runs st filters none none ∧
    ∀ r ∈ orderedRuns st, ∃ pre post, orderedRuns st = pre ++ r :: post ∧
      get_runs st filters (some r.run_id) none = post.filter (runMatches filters) := by
  have hidsL : ((orderedRuns st).map DagsterRun.run_id).Nodup := by
    unfold orderedRuns
    rw [List.map_reverse, List.nodup_reverse]
    exact hids
  constructor
  · have hmain := paginate_eq_filter st filters limit hlim hidsL fuel none (orderedRuns st)
      (Or.inl ⟨rfl, rfl⟩)
      (by unfold orderedRuns; rw [List.length_reverse]; exact hfuel)
    rw [hmain]
    rfl
  · intro r hr
    obtain ⟨pre, post, hsplit⟩ := List.append_of_mem hr
    obtain ⟨hpre, _, _⟩ := split_ids_facts hidsL hsplit
    refine ⟨pre, post, hsplit, ?_⟩
    unfold get_runs
    rw [hsplit, afterCursor_split pre post r hpre]

/-- Witness for C4 at the `test_fetch_by_status_cursored` store: walking the
`STARTED` filter with limit 1 enumerates exactly the full filtered list. -/
theorem C4_cursor_pagination_witness :
    (runIds c4Store).Nodup ∧ (0 : Nat) < 1 ∧
    paginate c4Store startedFilter 1 4 none = get_runs c4Store startedFilter none none :=
  ⟨by decide, by decide,
    (C4_cursor_pagination c4Store startedFilter 1 4 (by decide) (by decide) (by decide)).1⟩
